import Mathlib

set_option maxRecDepth 100000

/-!
Verification development for the MRIT helpdesk query-resolution core
(`src/app.py`).  Python strings are modelled as lists of Unicode code
points (`PyStr := List Nat`); Python float scores (SequenceMatcher
ratios and threshold literals) are modelled as exact rationals, with all
executable comparisons done by cross multiplication on naturals so that
concrete inputs evaluate inside the kernel.  The knowledge base, which
the program loads from a JSON file, is modelled as an explicit record of
optional fields passed to every function (a JSON object key that may be
absent becomes an `Option` field; `dict.get(k, d)` becomes `Option.getD`,
and the raising access `dict[k]` becomes a lookup in the `Except`
monad).
-/

/-- A Python string: the list of its Unicode code points. -/
abbrev PyStr := List Nat

/-- Turns a Lean string literal into its code-point model. -/
def S (s : String) : PyStr := s.data.map Char.toNat

/-- ASCII fragment of Python `str.lower` on one code point. -/
def lowerN (n : Nat) : Nat := if 65 ≤ n ∧ n ≤ 90 then n + 32 else n

/-- ASCII fragment of Python `str.upper` on one code point. -/
def upperN (n : Nat) : Nat := if 97 ≤ n ∧ n ≤ 122 then n - 32 else n

/-- Python `str.lower` (ASCII fragment). -/
def pyLower (s : PyStr) : PyStr := s.map lowerN

/-- Python `str.upper` (ASCII fragment). -/
def pyUpper (s : PyStr) : PyStr := s.map upperN

/-- ASCII whitespace, the fragment of Python `str.isspace` we need. -/
def isWS (n : Nat) : Bool := n == 32 || n == 9 || n == 10 || n == 13 || n == 11 || n == 12

/-- Python `str.lstrip()`. -/
def pyLStrip (s : PyStr) : PyStr := s.dropWhile isWS

/-- Python `str.rstrip()`. -/
def pyRStrip (s : PyStr) : PyStr := (s.reverse.dropWhile isWS).reverse

/-- Python `str.strip()`. -/
def pyStrip (s : PyStr) : PyStr := pyRStrip (pyLStrip s)

/-- `leadsOf p s` is true when `p` is an initial segment of `s`. -/
def leadsOf : PyStr → PyStr → Bool
  | [], _ => true
  | _ :: _, [] => false
  | a :: as, b :: bs => a == b && leadsOf as bs

/-- The Python substring test `p in s`. -/
def pyIn (p : PyStr) : PyStr → Bool
  | [] => leadsOf p []
  | c :: rest => leadsOf p (c :: rest) || pyIn p rest

/-- Python `str.capitalize` (ASCII fragment). -/
def pyCapitalize : PyStr → PyStr
  | [] => []
  | c :: rest => upperN c :: rest.map lowerN

/-- Python `sep.join(parts)`. -/
def pyJoin (sep : PyStr) : List PyStr → PyStr
  | [] => []
  | x :: xs => x ++ xs.flatMap (fun y => sep ++ y)

/-- Decimal rendering of a natural, as used by Python f-strings. -/
def natStr (n : Nat) : PyStr := (Nat.repr n).data.map Char.toNat

/-! ### Similarity scorer (`difflib.SequenceMatcher.ratio`)

`similarity(a, b) = SequenceMatcher(None, a, b).ratio()`.  The ratio is
`2*M/T` where `T = len(a) + len(b)` and `M` is the total size of the
matching blocks found by repeatedly taking the longest matching block
(ties broken by lowest start in `a`, then lowest start in `b`; this is
the documented behaviour of `find_longest_match` with no junk, which is
the case here since all strings are far shorter than the autojunk
threshold of 200) and recursing on the pieces to its left and right.
For `T = 0` the Python helper for the ratio returns `1.0`. -/

/-- Length of the longest common initial segment of two strings. -/
def cpl : PyStr → PyStr → Nat
  | a :: as, b :: bs => if a = b then cpl as bs + 1 else 0
  | _, _ => 0

/-- One inner pass of `find_longest_match`: scan all start positions `j`
in `y` for a fixed start `i` in `x`, keeping the first strictly longer
block (Python records a new block only on `k > bestsize`). -/
def bmInner (x y : PyStr) (i : Nat) (acc : Nat × Nat × Nat) : Nat × Nat × Nat :=
  (List.range y.length).foldl (fun acc j =>
    if acc.2.2 < cpl (x.drop i) (y.drop j) then (i, j, cpl (x.drop i) (y.drop j)) else acc) acc

/-- `find_longest_match` over whole windows: the triple `(i, j, k)` of the
longest matching block `x[i:i+k] = y[j:j+k]`, ties broken by lowest `i`
then lowest `j`; `(0, 0, 0)` when the windows share no element. -/
def bestMatch (x y : PyStr) : Nat × Nat × Nat :=
  (List.range x.length).foldl (fun acc i => bmInner x y i acc) (0, 0, 0)

/-- Total matched size over all matching blocks, with explicit fuel so the
definition is structural (any fuel `≥ x.length + y.length` is enough). -/
def matchTotalF : Nat → PyStr → PyStr → Nat
  | 0, _, _ => 0
  | fuel+1, x, y =>
    match bestMatch x y with
    | (i, j, k) =>
      if k = 0 then 0
      else matchTotalF fuel (x.take i) (y.take j) + k +
           matchTotalF fuel (x.drop (i + k)) (y.drop (j + k))

/-- `M`: the total size of the matching blocks of `x` and `y`. -/
def matchTotal (x y : PyStr) : Nat := matchTotalF (x.length + y.length) x y

/-- The ratio `2*M/T` as an exact fraction `(numerator, denominator)`;
the empty-input special case (`T = 0`) is represented by `(1, 1)`. -/
def simFrac (x y : PyStr) : Nat × Nat :=
  if x.length + y.length = 0 then (1, 1)
  else (2 * matchTotal x y, x.length + y.length)

/-- Value of a fraction pair as a rational. -/
def toQ (p : Nat × Nat) : ℚ := (p.1 : ℚ) / (p.2 : ℚ)

/-- `similarity(a, b)` of `src/app.py`, as an exact rational. -/
def similarity (a b : PyStr) : ℚ := toQ (simFrac a b)

/-- Strict comparison of two fraction pairs by cross multiplication;
used to model the float comparisons `score > best_score` and
`score > threshold` exactly. -/
def fracLt (p q : Nat × Nat) : Bool := decide (p.1 * q.2 < q.1 * p.2)

/-! ### Text normalizer (`normalize_text`)

`q.lower().strip()` followed by the ordered synonym replacements of the
Python dict (insertion order, each one `str.replace`, i.e. all
non-overlapping occurrences left to right). -/

/-- The recursion behind `str.replace` for a non-empty pattern, with fuel
(`fuel ≥ s.length` is enough): at each position, if the pattern starts
here, emit the replacement and skip the pattern, else keep the character. -/
def replaceGoF (p v : PyStr) : Nat → PyStr → PyStr
  | 0, s => s
  | _+1, [] => []
  | fuel+1, c :: rest =>
    if leadsOf p (c :: rest) then v ++ replaceGoF p v fuel (rest.drop (p.length - 1))
    else c :: replaceGoF p v fuel rest

/-- Python `s.replace(p, v)` (all occurrences).  For the empty pattern,
Python inserts `v` at every boundary. -/
def pyReplace (s p v : PyStr) : PyStr :=
  if p.isEmpty then v ++ s.flatMap (fun c => c :: v) else replaceGoF p v s.length s

/-- The synonym table of `normalize_text`, in dict insertion order. -/
def synonyms : List (PyStr × PyStr) :=
  [(S "faculties", S "faculty"), (S "professors", S "faculty"), (S "teachers", S "faculty"),
   (S "lecturers", S "faculty"), (S "staffs", S "staff"), (S "incharge", S "hod"),
   (S "head of department", S "hod"), (S "leader", S "hod"), (S "head", S "hod"),
   (S "dept", S "department"), (S "academic calendar", S "calendar"),
   (S "calendar of events", S "calendar"), (S "event calendar", S "calendar"),
   (S "events calendar", S "calendar"), (S "time table", S "timetable"),
   (S "time-table", S "timetable"), (S "fees", S "fee"), (S "examination", S "exam"),
   (S "7th sem", S "seventh semester"), (S "7th semester", S "seventh semester"),
   (S "7 th sem", S "seventh semester")]

/-- `normalize_text` of `src/app.py`. -/
def normalize_text (q : PyStr) : PyStr :=
  synonyms.foldl (fun acc pr => pyReplace acc pr.1 pr.2) (pyStrip (pyLower q))

/-- `contains_any` of `src/app.py`. -/
def contains_any (q : PyStr) (words : List PyStr) : Bool := words.any (fun w => pyIn w q)

/-- `intent_match` of `src/app.py`: literal containment or similarity
above `0.72`. -/
def intent_match (q : PyStr) (keywords : List PyStr) : Bool :=
  keywords.any (fun k => pyIn k q || fracLt (72, 100) (simFrac q k))

/-! ### Knowledge-base data model

One `Option` field per JSON key actually read by the code; an absent key
is `none`.  JSON numbers that are only ever interpolated into f-strings
(fee amounts, credits) are modelled by their rendered text. -/

structure FacultyM where
  name : Option PyStr
  deriving DecidableEq

structure Department where
  name : Option PyStr
  short : Option PyStr
  hod : Option PyStr
  location : Option PyStr
  directions : Option PyStr
  faculty : Option (List FacultyM)
  courses : Option (List PyStr)
  deriving DecidableEq

structure Subject where
  code : Option PyStr
  name : Option PyStr
  faculty : Option PyStr
  credits : Option PyStr
  deriving DecidableEq

structure CalEvent where
  title : Option PyStr
  date : Option PyStr
  deriving DecidableEq

structure QnA where
  question : Option PyStr
  answer : Option PyStr
  deriving DecidableEq

structure TTRow where
  day : Option PyStr
  periods : Option (List PyStr)
  deriving DecidableEq

structure DeptFees where
  tuition : Option PyStr
  exam : Option PyStr
  deriving DecidableEq

structure Fees where
  exam_fee_last_date : Option PyStr
  tuition_fee_last_date : Option PyStr
  payment_portal : Option PyStr
  department_fees : List (PyStr × DeptFees)
  deriving DecidableEq

structure Facility where
  name : Option PyStr
  location : Option PyStr
  hours : Option PyStr
  directions : Option PyStr
  notes : Option PyStr
  deriving DecidableEq

structure Lab where
  name : Option PyStr
  location : Option PyStr
  directions : Option PyStr
  deriving DecidableEq

structure EventRec where
  title : Option PyStr
  date : Option PyStr
  venue : Option PyStr
  deriving DecidableEq

structure Principal where
  name : Option PyStr
  specialization : Option PyStr
  contact : Option PyStr
  deriving DecidableEq

structure VicePrincipal where
  name : Option PyStr
  specialization : Option PyStr
  deriving DecidableEq

structure College where
  name : Option PyStr
  principal : Principal
  vice_principal : VicePrincipal
  deriving DecidableEq

structure KBase where
  departments : List Department
  college : College
  fees : Fees
  facilities : List Facility
  labs : List Lab
  events : List EventRec
  cal_events : List CalEvent
  tt_A : List TTRow
  tt_B : List TTRow
  subjects : List Subject
  sem_qna : List QnA
  deriving DecidableEq

/-- Answers may raise (Python `KeyError`/`IndexError`, modelled as the
error case) or return a string. -/
abbrev Res := Except Unit PyStr

/-- The raising dictionary access `d[k]`. -/
def pyItem (o : Option PyStr) : Except Unit PyStr :=
  match o with
  | some v => Except.ok v
  | none => Except.error ()

/-- Python dict truthiness for the modelled records: at least one key. -/
def qnaTruthy (qa : QnA) : Bool := qa.question.isSome || qa.answer.isSome

/-- Python dict truthiness for a calendar event record. -/
def evTruthy (ev : CalEvent) : Bool := ev.title.isSome || ev.date.isSome

/-- Python dict truthiness for a department record. -/
def deptTruthy (d : Department) : Bool :=
  d.name.isSome || d.short.isSome || d.hod.isSome || d.location.isSome ||
  d.directions.isSome || d.faculty.isSome || d.courses.isSome

/-- Python dict truthiness for a subject record. -/
def subjTruthy (s : Subject) : Bool :=
  s.code.isSome || s.name.isSome || s.faculty.isSome || s.credits.isSome

/-- Python dict truthiness for a timetable row. -/
def rowTruthy (r : TTRow) : Bool := r.day.isSome || r.periods.isSome

/-- Truthiness of `o.get(k)` / `o.get(k, "")` as used in `if t:` tests. -/
def optTruthy (o : Option PyStr) : Bool := !(o.getD []).isEmpty

/-! ### Entity finders -/

/-- Lowercased name key of a department (`dept.get("name", "").lower()`). -/
def deptNameKey (d : Department) : PyStr := pyLower (d.name.getD [])

/-- Lowercased short key of a department (`dept.get("short", "").lower()`). -/
def deptShortKey (d : Department) : PyStr := pyLower (d.short.getD [])

/-- Substring phase of `find_department`: the first department whose
lowercased name or short code occurs in the query. -/
def findDeptSub (q : PyStr) : List Department → Option Department
  | [] => none
  | d :: rest =>
    if pyIn (deptNameKey d) q || pyIn (deptShortKey d) q then some d else findDeptSub q rest

/-- The `best`/`best_score` loop shared by all similarity phases: fold the
candidate/score pairs in iteration order, replacing the best only on a
strictly greater score (the initial score is `0.0`). -/
def bestLoop {α : Type _} (pairs : List (α × (Nat × Nat))) : Option α × (Nat × Nat) :=
  pairs.foldl (fun acc p => if fracLt acc.2 p.2 then (some p.1, p.2) else acc) (none, (0, 1))

/-- `find_department` of `src/app.py`: substring phase, then the
similarity phase over the name and short keys with threshold `0.6`. -/
def find_department (depts : List Department) (query_lc : PyStr) : Option Department :=
  match findDeptSub query_lc depts with
  | some d => some d
  | none =>
    let bp := bestLoop (depts.flatMap (fun d =>
      [(d, simFrac query_lc (deptNameKey d)), (d, simFrac query_lc (deptShortKey d))]))
    if fracLt (6, 10) bp.2 then bp.1 else none

/-- The text scored for a calendar event:
`(ev.get("title", "") + " " + ev.get("date", "")).lower()`. -/
def evKey (ev : CalEvent) : PyStr := pyLower (ev.title.getD [] ++ S " " ++ ev.date.getD [])

/-- `find_calendar_event` of `src/app.py`: similarity only, threshold `0.55`. -/
def find_calendar_event (evs : List CalEvent) (q : PyStr) : Option CalEvent :=
  let bp := bestLoop (evs.map (fun ev => (ev, simFrac q (evKey ev))))
  if fracLt (55, 100) bp.2 then bp.1 else none

/-- The lowercased question of a Q&A entry. -/
def qnaKey (qa : QnA) : PyStr := pyLower (qa.question.getD [])

/-- `find_semantic_qna` of `src/app.py`: similarity only, threshold `0.7`. -/
def find_semantic_qna (bank : List QnA) (q : PyStr) : Option QnA :=
  let bp := bestLoop (bank.map (fun qa => (qa, simFrac q (qnaKey qa))))
  if fracLt (7, 10) bp.2 then bp.1 else none

/-- `find_subject_by_name_or_code` of `src/app.py`: similarity only over
the name and code keys, threshold `0.6`. -/
def find_subject_by_name_or_code (subs : List Subject) (q : PyStr) : Option Subject :=
  let bp := bestLoop (subs.flatMap (fun s =>
    [(s, simFrac q (pyLower (s.name.getD []))), (s, simFrac q (pyLower (s.code.getD [])))]))
  if fracLt (6, 10) bp.2 then bp.1 else none

/-- `find_day_timetable` of `src/app.py`. -/
def find_day_timetable (tt : List TTRow) (dayName : PyStr) : Option TTRow :=
  tt.find? (fun r => pyLower (r.day.getD []) == pyLower dayName)

/-! ### Timetable renderers -/

/-- `r.get("periods", [])`. -/
def rowPeriods (r : TTRow) : List PyStr := r.periods.getD []

/-- `max(len(r.get("periods", [])) for r in tt_list)` (the code only calls
this on a non-empty list, where the fold below agrees with Python `max`). -/
def maxPeriods (tt : List TTRow) : Nat := tt.foldl (fun m r => max m (rowPeriods r).length) 0

/-- One header cell `<th>P{i}</th>`. -/
def thCell (i : Nat) : PyStr := S "<th>P" ++ natStr i ++ S "</th>"

/-- The header labels `P1..Pm`. -/
def headerLabels (m : Nat) : List PyStr := (List.range' 1 m).map thCell

/-- `header_cells`: the joined header labels. -/
def headerCells (m : Nat) : PyStr := pyJoin [] (headerLabels m)

/-- One data cell `<td>{p}</td>`. -/
def tdCell (p : PyStr) : PyStr := S "<td>" ++ p ++ S "</td>"

/-- The padded cell list of a row: its periods followed by `"-"` filler up
to `m` cells. -/
def padCells (m : Nat) (ps : List PyStr) : List PyStr :=
  ps ++ List.replicate (m - ps.length) (S "-")

/-- `row_cells` of the full-week renderer: the period cells, plus `"-"`
cells when the row is shorter than `m`. -/
def rowCellsHtml (m : Nat) (ps : List PyStr) : PyStr :=
  pyJoin [] (ps.map tdCell) ++
  (if ps.length < m then pyJoin [] ((List.replicate (m - ps.length) (S "-")).map tdCell) else [])

/-- One `<tr>` of the full-week table. -/
def rowHtml (m : Nat) (r : TTRow) : PyStr :=
  S "<tr><td>" ++ r.day.getD [] ++ S "</td>" ++ rowCellsHtml m (rowPeriods r) ++ S "</tr>"

/-- `build_full_timetable_html` of `src/app.py`. -/
def build_full_timetable_html (tt : List TTRow) (label : PyStr) : PyStr :=
  if tt = [] then S "Timetable information is not available."
  else
    S "\n    <div class=\"timetable-container\">\n      <strong>📅 7th Semester " ++
    pyUpper label ++
    S " Timetable</strong>\n      <table class=\"timetable\">\n        <thead>\n          <tr><th>Day</th>" ++
    headerCells (maxPeriods tt) ++
    S "</tr>\n        </thead>\n        <tbody>\n          " ++
    pyJoin [] (tt.map (rowHtml (maxPeriods tt))) ++
    S "\n        </tbody>\n      </table>\n    </div>\n    "

/-- `build_single_day_table_html` of `src/app.py`. -/
def build_single_day_table_html (r : TTRow) (label : PyStr) : PyStr :=
  if rowPeriods r = [] then
    S "No timetable available for " ++ r.day.getD (S "this day") ++ S "."
  else
    S "\n    <div class=\"timetable-container\">\n      <strong>📋 " ++
    pyCapitalize (r.day.getD []) ++ S " - 7th Sem " ++ pyUpper label ++
    S "</strong>\n      <table class=\"timetable\">\n        <thead>\n          <tr><th>Day</th>" ++
    headerCells (rowPeriods r).length ++
    S "</tr>\n        </thead>\n        <tbody>\n          <tr><td>" ++ r.day.getD [] ++
    S "</td>" ++ pyJoin [] ((rowPeriods r).map tdCell) ++
    S "</tr>\n        </tbody>\n      </table>\n    </div>\n    "

/-! ### Intent router (`answer_query`)

Each Python `if <gate>: ... return` block becomes a handler returning
`some answer` when the block returns and `none` when it falls through;
`answer_query` takes the first `some` in order, defaulting to the fixed
fallback message. -/

def calLinkKws : List PyStr :=
  [S "calendar", S "schedule of events", S "exam schedule", S "academic schedule"]

def calEventKws : List PyStr :=
  [S "independence day", S "ganesha", S "deepavali", S "conference", S "rajyotsava",
   S "phase-1", S "phase-2", S "cie-1", S "cie-2", S "industrial visit",
   S "last working day", S "lab internals", S "report submission", S "practical exams",
   S "theory exams"]

def vpWords : List PyStr :=
  [S "vice principal", S "viceprincipal", S "vp", S "assistant principal"]

def prWords : List PyStr := [S "principal", S "head of college", S "college principal"]

def hodKws : List PyStr := [S "hod", S "head of department"]

def facKws : List PyStr := [S "faculty", S "professor", S "staff"]

def feeKws : List PyStr := [S "fee", S "exam fee", S "payment", S "tuition"]

def deptKws : List PyStr := [S "department", S "cse", S "ece", S "computer", S "electronics"]

def deptExclKws : List PyStr := [S "hod", S "faculty", S "professor", S "staff"]

def ttKws : List PyStr := [S "timetable", S "class schedule", S "time table", S "periods"]

def subjKws : List PyStr :=
  [S "subject", S "code", S "credits", S "faculty for", S "who teaches", S "teacher of"]

def facilityKws : List PyStr :=
  [S "library", S "canteen", S "hostel", S "facility", S "facilities"]

def labKws : List PyStr := [S "lab", S "laboratory"]

def eventKws : List PyStr := [S "event", S "orientation", S "hackathon", S "function"]

def collegeKws : List PyStr :=
  [S "college name", S "what is this college", S "which college", S "name of college"]

def dirWords : List PyStr := [S "where is", S "location of", S "how to reach", S "how do i go"]

def weekDays : List PyStr :=
  [S "monday", S "tuesday", S "wednesday", S "thursday", S "friday"]

def fallbackMsg : PyStr :=
  S "I can help with details about principal, <strong>vice principal</strong>, HOD, faculty, fees, <strong>timetable tables</strong>, departments, labs, facilities, semester calendar events, subjects, and academic calendar PDF. Try asking: \x27Vice principal\x27, \x27CSE HOD\x27, \x27<strong>Monday timetable for 7th sem A</strong>\x27, \x27Who teaches IoT?\x27, or \x27Exam fee last date?\x27."

def calLinkMsg : PyStr :=
  S "You can view or download the Academic Calendar here: <a href=\x27/calendar\x27 target=\x27_blank\x27>Open Academic Calendar (PDF)</a>"

def hodPrompt : PyStr := S "Please specify a valid department for HOD information."

def facPrompt : PyStr := S "Please specify a valid department for faculty information."

def deptPrompt : PyStr := S "Please specify a valid department."

def subjPrompt : PyStr := S "Please specify a valid subject."

/-- Direct semester Q&A block. -/
def tryQna (kb : KBase) (q : PyStr) : Option Res :=
  match find_semantic_qna kb.sem_qna q with
  | some qa =>
    if qnaTruthy qa then some (Except.ok (qa.answer.getD (S "Information not available.")))
    else none
  | none => none

/-- Academic calendar link block. -/
def tryCalLink (q : PyStr) : Option Res :=
  if intent_match q calLinkKws then some (Except.ok calLinkMsg) else none

/-- Specific calendar event block (falls through when no event resolves). -/
def tryCalEvent (kb : KBase) (q : PyStr) : Option Res :=
  if intent_match q calEventKws then
    match find_calendar_event kb.cal_events q with
    | some ev =>
      if evTruthy ev then
        some (Except.ok (ev.title.getD (S "Event") ++ S ": " ++
          ev.date.getD (S "Date not available") ++ S "."))
      else none
    | none => none
  else none

/-- The vice-principal answer string. -/
def vpAnswer (kb : KBase) : PyStr :=
  let name := kb.college.vice_principal.name.getD (S "Not available")
  let spec := kb.college.vice_principal.specialization.getD []
  let detail := if spec.isEmpty then [] else S " (Specialization: " ++ spec ++ S ")"
  S "Vice Principal: " ++ name ++ detail

/-- Vice-principal block. -/
def tryVP (kb : KBase) (q : PyStr) : Option Res :=
  if contains_any q vpWords then some (Except.ok (vpAnswer kb)) else none

/-- The principal answer string. -/
def prAnswer (kb : KBase) : PyStr :=
  let name := kb.college.principal.name.getD (S "Not available")
  let spec := kb.college.principal.specialization.getD []
  let contact := kb.college.principal.contact.getD []
  let extra := (if spec.isEmpty then [] else [S "Specialization: " ++ spec]) ++
               (if contact.isEmpty then [] else [S "Contact: " ++ contact])
  let detail := pyJoin (S " · ") extra
  S "Principal: " ++ name ++ (if detail.isEmpty then [] else S " (" ++ detail ++ S ")")

/-- Principal block. -/
def tryPrincipal (kb : KBase) (q : PyStr) : Option Res :=
  if contains_any q prWords then some (Except.ok (prAnswer kb)) else none

/-- HOD block: `dept["name"]` raises when the key is absent. -/
def tryHod (kb : KBase) (q : PyStr) : Option Res :=
  if intent_match q hodKws then
    some (match find_department kb.departments q with
      | some d =>
        if deptTruthy d then
          match d.name with
          | some n => Except.ok (S "HOD of " ++ n ++ S ": " ++ d.hod.getD (S "Not available"))
          | none => Except.error ()
        else Except.ok hodPrompt
      | none => Except.ok hodPrompt)
  else none

/-- The faculty-member names, each through the raising access `f["name"]`. -/
def seqNames : List FacultyM → Except Unit (List PyStr)
  | [] => Except.ok []
  | f :: rest =>
    match f.name with
    | some n => (seqNames rest).map (fun ms => n :: ms)
    | none => Except.error ()

/-- The faculty-listing answer for a resolved department. -/
def facultyAnswer (d : Department) : Res :=
  match seqNames (d.faculty.getD []) with
  | Except.ok members =>
    match d.name with
    | some n => Except.ok (n ++ S " Faculty Members: " ++ pyJoin (S ", ") members)
    | none => Except.error ()
  | Except.error e => Except.error e

/-- Faculty block. -/
def tryFaculty (kb : KBase) (q : PyStr) : Option Res :=
  if intent_match q facKws then
    some (match find_department kb.departments q with
      | some d => if deptTruthy d then facultyAnswer d else Except.ok facPrompt
      | none => Except.ok facPrompt)
  else none

/-- `fees.get("department_fees", {}).get(short, {})`. -/
def lookupFees (dfees : List (PyStr × DeptFees)) (short : PyStr) : DeptFees :=
  match dfees.find? (fun pr => pr.1 == short) with
  | some pr => pr.2
  | none => ⟨none, none⟩

/-- The general (no department) fees answer. -/
def feesGeneral (kb : KBase) : Res :=
  Except.ok (S "Tuition Last Date: " ++ kb.fees.tuition_fee_last_date.getD (S "N/A") ++
    S " | Exam Fee Last Date: " ++ kb.fees.exam_fee_last_date.getD (S "N/A") ++
    S " | Payment via: " ++ kb.fees.payment_portal.getD (S "N/A"))

/-- The department-specific fees answer; `dept["name"]` is evaluated (and
may raise) only under a truthy amount. -/
def feesDeptAnswer (kb : KBase) (d : Department) : Res :=
  let exam_last := kb.fees.exam_fee_last_date.getD (S "N/A")
  let tuition_last := kb.fees.tuition_fee_last_date.getD (S "N/A")
  let portal := kb.fees.payment_portal.getD (S "N/A")
  let df := lookupFees kb.fees.department_fees (pyLower (d.short.getD []))
  match (if optTruthy df.tuition then
           (match d.name with
            | some n => Except.ok [n ++ S " Tuition: " ++ df.tuition.getD []]
            | none => Except.error ())
         else Except.ok ([] : List PyStr)) with
  | Except.error e => Except.error e
  | Except.ok p1 =>
    match (if optTruthy df.exam then
             (match d.name with
              | some n => Except.ok [n ++ S " Exam Fee: " ++ df.exam.getD []]
              | none => Except.error ())
           else Except.ok ([] : List PyStr)) with
    | Except.error e => Except.error e
    | Except.ok p2 =>
      Except.ok (pyJoin (S " | ") (p1 ++ p2 ++
        [S "Tuition Last Date: " ++ tuition_last, S "Exam Fee Last Date: " ++ exam_last,
         S "Payment via: " ++ portal]))

/-- Fees block. -/
def tryFees (kb : KBase) (q : PyStr) : Option Res :=
  if intent_match q feeKws then
    some (match find_department kb.departments q with
      | some d => if deptTruthy d then feesDeptAnswer kb d else feesGeneral kb
      | none => feesGeneral kb)
  else none

/-- The general department-information answer. -/
def deptInfoAnswer (d : Department) : PyStr :=
  let name := d.name.getD (S "Department")
  let loc := d.location.getD (S "Location not available")
  let joined := pyJoin (S ", ") (d.courses.getD [])
  let courses := if joined.isEmpty then S "Not specified" else joined
  name ++ S " is located at " ++ loc ++ S ". Courses offered: " ++ courses ++ S "."

/-- Department-information block (excluded on HOD/faculty/staff overlap). -/
def tryDeptInfo (kb : KBase) (q : PyStr) : Option Res :=
  if intent_match q deptKws && !intent_match q deptExclKws then
    some (match find_department kb.departments q with
      | some d => if deptTruthy d then Except.ok (deptInfoAnswer d) else Except.ok deptPrompt
      | none => Except.ok deptPrompt)
  else none

/-- Timetable block. -/
def tryTimetable (kb : KBase) (q : PyStr) : Option Res :=
  if intent_match q ttKws then
    let sectionB := pyIn (S " section b") q || pyIn (S " b ") q || pyIn (S "sem b") q
    let sect := if sectionB then S "B" else S "A"
    let tt_list := if sectionB then kb.tt_B else kb.tt_A
    some (match weekDays.find? (fun d => pyIn d q) with
      | some d =>
        match find_day_timetable tt_list d with
        | some row =>
          if rowTruthy row then Except.ok (build_single_day_table_html row sect)
          else Except.ok (S "Timetable for " ++ pyCapitalize d ++ S " (7th sem " ++ sect ++
            S ") not available.")
        | none => Except.ok (S "Timetable for " ++ pyCapitalize d ++ S " (7th sem " ++ sect ++
            S ") not available.")
      | none => Except.ok (build_full_timetable_html tt_list sect))
  else none

/-- The subject answer string. -/
def subjAnswer (s : Subject) : PyStr :=
  let code := s.code.getD []
  let name := s.name.getD []
  let fac := s.faculty.getD (S "Faculty not specified")
  pyJoin (S " | ") ([code ++ S " — " ++ name, S "Faculty: " ++ fac] ++
    (match s.credits with
     | some c => [S "Credits: " ++ c]
     | none => []))

/-- Subject block. -/
def trySubjects (kb : KBase) (q : PyStr) : Option Res :=
  if intent_match q subjKws then
    some (match find_subject_by_name_or_code kb.subjects q with
      | some s => if subjTruthy s then Except.ok (subjAnswer s) else Except.ok subjPrompt
      | none => Except.ok subjPrompt)
  else none

/-- The facility detail answer (`f["name"]` raises when absent, but the
scan only reaches it under a non-empty name). -/
def facilityDetail (f : Facility) : Res :=
  match f.name with
  | some n =>
    let loc := f.location.getD (S "Location not available")
    let hours := f.hours.getD []
    let dirn := f.directions.getD []
    let notes := f.notes.getD []
    Except.ok (pyJoin (S " | ") ([n ++ S " — " ++ loc] ++
      (if hours.isEmpty then [] else [S "Hours: " ++ hours]) ++
      (if notes.isEmpty then [] else [S "Notes: " ++ notes]) ++
      (if dirn.isEmpty then [] else [S "Directions: " ++ dirn])))
  | none => Except.error ()

/-- The detail loop of the facilities block. -/
def facilityScan (q : PyStr) : List Facility → Option Res
  | [] => none
  | f :: rest =>
    let name_l := pyLower (f.name.getD [])
    if !name_l.isEmpty && pyIn name_l q then some (facilityDetail f) else facilityScan q rest

/-- One line of the facilities brief listing. -/
def facilityBrief (f : Facility) : PyStr :=
  f.name.getD (S "Facility") ++ S " — " ++ f.location.getD (S "Location not available")

/-- Facilities block (falls through when there are no facilities). -/
def tryFacilities (kb : KBase) (q : PyStr) : Option Res :=
  if intent_match q facilityKws then
    match facilityScan q kb.facilities with
    | some r => some r
    | none =>
      if kb.facilities.isEmpty then none
      else some (Except.ok (S "Facilities: " ++ pyJoin (S " | ") (kb.facilities.map facilityBrief)))
  else none

/-- Python `str.split()` with fuel: whitespace-run separated words. -/
def pySplitWSF : Nat → PyStr → List PyStr
  | 0, _ => []
  | fuel+1, s =>
    match s.dropWhile isWS with
    | [] => []
    | c :: rest =>
      (c :: rest).takeWhile (fun n => !isWS n) ::
        pySplitWSF fuel ((c :: rest).dropWhile (fun n => !isWS n))

/-- Python `str.split()`. -/
def pySplitWS (s : PyStr) : List PyStr := pySplitWSF s.length s

/-- The lab detail answer. -/
def labDetail (lab : Lab) : Res :=
  match lab.name with
  | some n =>
    let loc := lab.location.getD (S "Location not available")
    let dirn := lab.directions.getD []
    Except.ok (pyJoin (S " | ") ([n ++ S " — " ++ loc] ++
      (if dirn.isEmpty then [] else [S "Directions: " ++ dirn])))
  | none => Except.error ()

/-- The detail loop of the labs block; `name_l.split()[0]` raises
`IndexError` on a whitespace-only name. -/
def labScan (q : PyStr) : List Lab → Option Res
  | [] => none
  | lab :: rest =>
    let name_l := pyLower (lab.name.getD [])
    if name_l.isEmpty then labScan q rest
    else if pyIn name_l q then some (labDetail lab)
    else
      match pySplitWS name_l with
      | [] => some (Except.error ())
      | w :: _ => if pyIn w q then some (labDetail lab) else labScan q rest

/-- One line of the labs brief listing. -/
def labBrief (lab : Lab) : PyStr :=
  lab.name.getD (S "Lab") ++ S " — " ++ lab.location.getD (S "Location not available")

/-- Labs block (falls through when there are no labs). -/
def tryLabs (kb : KBase) (q : PyStr) : Option Res :=
  if intent_match q labKws then
    match labScan q kb.labs with
    | some r => some r
    | none =>
      if kb.labs.isEmpty then none
      else some (Except.ok (S "Labs: " ++ pyJoin (S " | ") (kb.labs.map labBrief)))
  else none

/-- One line of the events listing. -/
def eventLine (e : EventRec) : PyStr :=
  e.title.getD (S "Event") ++ S " — " ++ e.date.getD (S "Date N/A") ++ S " at " ++
  e.venue.getD (S "Venue N/A")

/-- Events block (always answers once gated). -/
def tryEvents (kb : KBase) (q : PyStr) : Option Res :=
  if intent_match q eventKws then
    some (Except.ok (if kb.events.isEmpty then S "No events information is available right now."
      else S "Upcoming / scheduled events: " ++ pyJoin (S " | ") (kb.events.map eventLine)))
  else none

/-- College-name block. -/
def tryCollegeName (kb : KBase) (q : PyStr) : Option Res :=
  if intent_match q collegeKws then
    some (Except.ok (S "This helpdesk is for: " ++ kb.college.name.getD (S "Our College") ++ S "."))
  else none

/-- The department directions answer (`dept["name"]` raises when absent). -/
def deptDirAnswer (d : Department) : Res :=
  match d.name with
  | some n =>
    let loc := d.location.getD (S "Location not available")
    let dirn := d.directions.getD []
    Except.ok (n ++ S " is at " ++ loc ++ S "." ++
      (if dirn.isEmpty then [] else S " Directions: " ++ dirn))
  | none => Except.error ()

/-- The facility loop of the directions block. -/
def facilityDirScan (q : PyStr) : List Facility → Option Res
  | [] => none
  | f :: rest =>
    let name_l := pyLower (f.name.getD [])
    if !name_l.isEmpty && pyIn name_l q then
      some (match f.name with
        | some n =>
          Except.ok (n ++ S " is at " ++ f.location.getD (S "Location not available") ++ S "." ++
            (let dirn := f.directions.getD []
             if dirn.isEmpty then [] else S " Directions: " ++ dirn))
        | none => Except.error ())
    else facilityDirScan q rest

/-- Generic directions block (falls through when nothing resolves). -/
def tryDirections (kb : KBase) (q : PyStr) : Option Res :=
  if contains_any q dirWords then
    match find_department kb.departments q with
    | some d => if deptTruthy d then some (deptDirAnswer d) else facilityDirScan q kb.facilities
    | none => facilityDirScan q kb.facilities
  else none

/-- The ordered chain of intent blocks of `answer_query`. -/
def handlerList (kb : KBase) (q : PyStr) : List (Option Res) :=
  [tryQna kb q, tryCalLink q, tryCalEvent kb q, tryVP kb q, tryPrincipal kb q,
   tryHod kb q, tryFaculty kb q, tryFees kb q, tryDeptInfo kb q, tryTimetable kb q,
   trySubjects kb q, tryFacilities kb q, tryLabs kb q, tryEvents kb q,
   tryCollegeName kb q, tryDirections kb q]

/-- First produced answer of an ordered chain. -/
def firstSome {α : Type _} : List (Option α) → Option α
  | [] => none
  | o :: rest =>
    match o with
    | some r => some r
    | none => firstSome rest

/-- `answer_query` of `src/app.py`: normalize, then the first block that
returns, defaulting to the fixed fallback help message. -/
def answer_query (kb : KBase) (query : PyStr) : Res :=
  (firstSome (handlerList kb (normalize_text query))).getD (Except.ok fallbackMsg)

/-! ### Multi-question splitter and entry point -/

/-- Separator codes `.`, `?`, `;` of the split pattern. -/
def isPunct (c : Nat) : Bool := c == 46 || c == 63 || c == 59

/-- Length of the separator match of `\s*[.?;]+\s*|\s+and\s+` at the head
of `l`, if any (first alternative preferred, greedy, as in `re`). -/
def sepMatch (l : PyStr) : Option Nat :=
  let w := (l.takeWhile isWS).length
  let rest := l.drop w
  let p := (rest.takeWhile isPunct).length
  if 0 < p then some (w + p + ((rest.drop p).takeWhile isWS).length)
  else
    let w3 := ((rest.drop 3).takeWhile isWS).length
    if 0 < w && leadsOf (S "and") rest && 0 < w3 then some (w + 3 + w3) else none

/-- Leftmost separator match: its start index and length. -/
def findSep : PyStr → Option (Nat × Nat)
  | [] => none
  | c :: rest =>
    match sepMatch (c :: rest) with
    | some L => some (0, L)
    | none => (findSep rest).map (fun pr => (pr.1 + 1, pr.2))

/-- `re.split` on the separator pattern, with fuel (`l.length` is enough
since every separator consumes at least one character). -/
def splitGoF : Nat → PyStr → List PyStr
  | 0, l => [l]
  | fuel+1, l =>
    match findSep l with
    | none => [l]
    | some (i, L) => l.take i :: splitGoF fuel (l.drop (i + L))

/-- The raw pieces of `re.split(r"\s*[.?;]+\s*|\s+and\s+", text)`. -/
def pySplitRaw (l : PyStr) : List PyStr := splitGoF l.length l

/-- `split_questions` of `src/app.py`. -/
def split_questions (text : PyStr) : List PyStr :=
  ((pySplitRaw text).map pyStrip).filter (fun s => !s.isEmpty)

/-- The answers of all fragments, or the first raised error. -/
def seqAnswers (kb : KBase) : List PyStr → Except Unit (List PyStr)
  | [] => Except.ok []
  | q :: rest =>
    match answer_query kb q with
    | Except.ok a => (seqAnswers kb rest).map (fun as => a :: as)
    | Except.error e => Except.error e

/-- The `/ask` entry point of `src/app.py` (transport envelope aside):
strip the raw question, answer `"Please type a question."` when empty,
else split into sub-questions, answer each and join with `"<br>"`. -/
def ask_core (kb : KBase) (raw : PyStr) : Res :=
  if (pyStrip raw).isEmpty then Except.ok (S "Please type a question.")
  else
    match seqAnswers kb (split_questions (pyStrip raw)) with
    | Except.ok answers => Except.ok (pyJoin (S "<br>") answers)
    | Except.error e => Except.error e


/-- The head, when present, is not whitespace. -/
def noWSHead (l : PyStr) : Prop := ∀ c, l.head? = some c → isWS c = false

/-- The last element, when present, is not whitespace. -/
def noWSLast (l : PyStr) : Prop := ∀ c, l.getLast? = some c → isWS c = false

/-- Invariant of every intermediate string of `normalize_text`: no edge
whitespace and all characters fixed by lowercasing. -/
def normInv (t : PyStr) : Prop := noWSHead t ∧ noWSLast t ∧ ∀ c ∈ t, lowerN c = c

instance {α : Type _} [DecidableEq α] : DecidableEq (Except Unit α) := fun a b =>
  match a, b with
  | Except.ok x, Except.ok y =>
    if h : x = y then isTrue (by rw [h]) else isFalse (fun he => by cases he; exact h rfl)
  | Except.error x, Except.error y => isTrue (by cases x; cases y; rfl)
  | Except.ok _, Except.error _ => isFalse (fun he => by cases he)
  | Except.error _, Except.ok _ => isFalse (fun he => by cases he)

/-- The substring test of the first phase of `find_department`. -/
def deptSubHit (q : PyStr) (d : Department) : Bool :=
  pyIn (deptNameKey d) q || pyIn (deptShortKey d) q

/-- An answer that returned normally (no exception). -/
def isOkRes (r : Res) : Prop := ∃ s, r = Except.ok s

/-- The well-formedness the code needs to never raise: every department
record and every faculty member has a `name` key, and no lab has a
whitespace-only name. -/
def WellNamed (kb : KBase) : Prop :=
  (∀ d ∈ kb.departments, d.name.isSome = true ∧
    ∀ f ∈ d.faculty.getD [], f.name.isSome = true) ∧
  (∀ lab ∈ kb.labs, pyLower (lab.name.getD []) ≠ [] →
    pySplitWS (pyLower (lab.name.getD [])) ≠ [])

instance (kb : KBase) : Decidable (WellNamed kb) := by
  unfold WellNamed
  infer_instance

/-! ### Concrete knowledge bases used in examples -/

/-- The empty knowledge base. -/
def kbNone : KBase :=
  { departments := [], college := ⟨none, ⟨none, none, none⟩, ⟨none, none⟩⟩,
    fees := ⟨none, none, none, []⟩, facilities := [], labs := [], events := [],
    cal_events := [], tt_A := [], tt_B := [], subjects := [], sem_qna := [] }

/-- A bank with two questions that differ only in case. -/
def kbQnaDup : KBase :=
  { kbNone with
    sem_qna := [⟨some (S "HELLO"), some (S "A1")⟩, ⟨some (S "hello"), some (S "A2")⟩] }

/-- A single-entry bank whose question is already normalized. -/
def kbQnaSimple : KBase :=
  { kbNone with sem_qna := [⟨some (S "fee due date"), some (S "Aug 1")⟩] }

/-- A department record with no `name` key. -/
def kbMissingName : KBase :=
  { kbNone with
    departments := [⟨none, some (S "cs"), some (S "Dr. X"), none, none, none, none⟩] }

/-- No facilities, one lab. -/
def kbLabsOnly : KBase :=
  { kbNone with labs := [⟨some (S "physics lab"), some (S "Block C"), none⟩] }

/-- A small well-formed knowledge base. -/
def kbSample : KBase :=
  { departments := [⟨some (S "Computer Science"), some (S "CSE"), some (S "Dr. H"), none, none,
      some [⟨some (S "Dr. A")⟩], some [S "B.E. CSE"]⟩],
    college := ⟨some (S "MRIT"), ⟨some (S "Dr. P"), none, none⟩, ⟨some (S "Dr. V"), none⟩⟩,
    fees := ⟨some (S "Aug 10"), some (S "Aug 5"), some (S "portal"), []⟩,
    facilities := [⟨some (S "Library"), some (S "Block A"), none, none, none⟩],
    labs := [⟨some (S "Physics Lab"), some (S "Block C"), none⟩],
    events := [], cal_events := [],
    tt_A := [⟨some (S "monday"), some [S "Math", S "Phys"]⟩], tt_B := [],
    subjects := [⟨some (S "CS101"), some (S "IoT"), some (S "Dr. S"), some (S "4")⟩],
    sem_qna := [⟨some (S "fee due date"), some (S "Aug 1")⟩] }

/-! ### Basic lemmas about the similarity machinery -/

theorem cpl_le_left : ∀ x y : PyStr, cpl x y ≤ x.length := by
  intro x
  induction x with
  | nil => intro y; cases y <;> simp [cpl]
  | cons a as ih =>
    intro y
    cases y with
    | nil => simp [cpl]
    | cons b bs =>
      simp only [cpl]
      split
      · have := ih bs; simp; omega
      · simp

theorem cpl_le_right : ∀ x y : PyStr, cpl x y ≤ y.length := by
  intro x
  induction x with
  | nil => intro y; cases y <;> simp [cpl]
  | cons a as ih =>
    intro y
    cases y with
    | nil => simp [cpl]
    | cons b bs =>
      simp only [cpl]
      split
      · have := ih bs; simp; omega
      · simp

theorem cpl_self : ∀ x : PyStr, cpl x x = x.length := by
  intro x
  induction x with
  | nil => simp [cpl]
  | cons a as ih => simp [cpl, ih]

theorem cpl_take : ∀ x y : PyStr, x.take (cpl x y) = y.take (cpl x y) := by
  intro x
  induction x with
  | nil => intro y; cases y <;> simp [cpl]
  | cons a as ih =>
    intro y
    cases y with
    | nil => simp [cpl]
    | cons b bs =>
      simp only [cpl]
      split
      · rename_i h; subst h; simp [List.take_succ_cons, ih bs]
      · simp

/-- Fold invariant helper. -/
theorem foldl_inv {α β : Type _} (l : List α) (f : β → α → β) (init : β) (P : β → Prop)
    (h0 : P init) (hstep : ∀ acc a, a ∈ l → P acc → P (f acc a)) : P (l.foldl f init) := by
  induction l generalizing init with
  | nil => exact h0
  | cons a l ih =>
    exact ih (f init a) (hstep init a (by simp) h0) (fun acc b hb => hstep acc b (by simp [hb]))

/-- Monotone fold helper: if each step can only increase the measure,
the fold result dominates the initial measure. -/
theorem foldl_mono_nat {α β : Type _} (l : List α) (f : β → α → β) (m : β → Nat) (init : β)
    (h : ∀ acc a, m acc ≤ m (f acc a)) : m init ≤ m (l.foldl f init) := by
  induction l generalizing init with
  | nil => exact le_refl _
  | cons a l ih => exact le_trans (h init a) (ih (f init a))

/-- Fold helper: if each step result dominates the value of its element and
steps are monotone, the fold dominates the value of every element. -/
theorem foldl_ge {α β : Type _} (l : List α) (f : β → α → β) (m : β → Nat) (g : α → Nat)
    (hmono : ∀ acc a, m acc ≤ m (f acc a)) (hstep : ∀ acc a, g a ≤ m (f acc a)) :
    ∀ init, ∀ a ∈ l, g a ≤ m (l.foldl f init) := by
  induction l with
  | nil => intro init a ha; simp at ha
  | cons b l ih =>
    intro init a ha
    rcases List.mem_cons.mp ha with h | h
    · subst h
      exact le_trans (hstep init a) (foldl_mono_nat l f m (f init a) hmono)
    · exact ih (f init b) a h

theorem bmInner_mono (x y : PyStr) (i : Nat) (acc : Nat × Nat × Nat) :
    acc.2.2 ≤ (bmInner x y i acc).2.2 := by
  refine foldl_mono_nat _ _ (fun t => t.2.2) acc ?_
  intro acc j
  dsimp only
  split
  · rename_i h; exact le_of_lt h
  · exact le_refl _

theorem bmInner_ge (x y : PyStr) (i : Nat) (acc : Nat × Nat × Nat) (j : Nat)
    (hj : j < y.length) : cpl (x.drop i) (y.drop j) ≤ (bmInner x y i acc).2.2 := by
  refine foldl_ge _ _ (fun t => t.2.2) (fun j => cpl (x.drop i) (y.drop j)) ?_ ?_ acc j
    (List.mem_range.mpr hj)
  · intro acc j'
    dsimp only
    split
    · rename_i h; exact le_of_lt h
    · exact le_refl _
  · intro acc j'
    dsimp only
    split
    · exact le_refl _
    · rename_i h; omega

/-- The longest-match size dominates the length of every candidate block. -/
theorem bestMatch_ge (x y : PyStr) (i j : Nat) (hi : i < x.length) (hj : j < y.length) :
    cpl (x.drop i) (y.drop j) ≤ (bestMatch x y).2.2 := by
  refine foldl_ge _ _ (fun t => t.2.2) (fun i => cpl (x.drop i) (y.drop j)) ?_ ?_ (0, 0, 0) i
    (List.mem_range.mpr hi)
  · intro acc i'; exact bmInner_mono x y i' acc
  · intro acc i'; exact bmInner_ge x y i' acc j hj

/-- Structure of the result of `bestMatch`: either no match at all, or a genuine
block inside both strings whose size is the common-extension length at
its start. -/
theorem bestMatch_spec (x y : PyStr) :
    bestMatch x y = (0, 0, 0) ∨
    ((bestMatch x y).1 < x.length ∧ (bestMatch x y).2.1 < y.length ∧
     (bestMatch x y).2.2 = cpl (x.drop (bestMatch x y).1) (y.drop (bestMatch x y).2.1) ∧
     0 < (bestMatch x y).2.2) := by
  unfold bestMatch bmInner
  apply foldl_inv _ _ _ (fun acc : Nat × Nat × Nat =>
    acc = (0, 0, 0) ∨
    (acc.1 < x.length ∧ acc.2.1 < y.length ∧
     acc.2.2 = cpl (x.drop acc.1) (y.drop acc.2.1) ∧ 0 < acc.2.2))
  · exact Or.inl rfl
  · intro acc i hi hacc
    apply foldl_inv _ _ _ (fun acc : Nat × Nat × Nat =>
      acc = (0, 0, 0) ∨
      (acc.1 < x.length ∧ acc.2.1 < y.length ∧
       acc.2.2 = cpl (x.drop acc.1) (y.drop acc.2.1) ∧ 0 < acc.2.2))
    · exact hacc
    · intro acc2 j hj hacc2
      dsimp only
      split
      · rename_i h
        refine Or.inr ⟨List.mem_range.mp hi, List.mem_range.mp hj, rfl, ?_⟩
        show 0 < cpl (x.drop i) (y.drop j)
        omega
      · exact hacc2

theorem bestMatch_nil_left (y : PyStr) : bestMatch [] y = (0, 0, 0) := rfl

theorem bestMatch_self (x : PyStr) (hx : x ≠ []) : bestMatch x x = (0, 0, x.length) := by
  have hlen : 0 < x.length := List.length_pos.mpr hx
  have hge : x.length ≤ (bestMatch x x).2.2 := by
    have := bestMatch_ge x x 0 0 hlen hlen
    simpa [cpl_self] using this
  rcases bestMatch_spec x x with h | ⟨hi, hj, hk, hpos⟩
  · rw [h] at hge
    simp at hge
    exact absurd hge hx
  · have hle1 : (bestMatch x x).2.2 ≤ x.length - (bestMatch x x).1 := by
      rw [hk]
      have := cpl_le_left (x.drop (bestMatch x x).1) (x.drop (bestMatch x x).2.1)
      simpa using this
    have hle2 : (bestMatch x x).2.2 ≤ x.length - (bestMatch x x).2.1 := by
      rw [hk]
      have := cpl_le_right (x.drop (bestMatch x x).1) (x.drop (bestMatch x x).2.1)
      simpa using this
    have h1 : (bestMatch x x).1 = 0 := by omega
    have h2 : (bestMatch x x).2.1 = 0 := by omega
    have h3 : (bestMatch x x).2.2 = x.length := by
      rw [hk, h1, h2]
      simp [cpl_self]
    rcases hbm : bestMatch x x with ⟨i, j, k⟩
    rw [hbm] at h1 h2 h3
    simp only at h1 h2 h3
    rw [h1, h2, h3]

theorem matchTotalF_nil : ∀ fuel, matchTotalF fuel [] [] = 0 := by
  intro fuel
  cases fuel with
  | zero => rfl
  | succ fuel => simp [matchTotalF, bestMatch_nil_left]

theorem matchTotalF_le_left : ∀ fuel (x y : PyStr), matchTotalF fuel x y ≤ x.length := by
  intro fuel
  induction fuel with
  | zero => intro x y; simp [matchTotalF]
  | succ fuel ih =>
    intro x y
    rcases hbm : bestMatch x y with ⟨i, j, k⟩
    simp only [matchTotalF, hbm]
    split
    · simp
    · rename_i hk0
      rcases bestMatch_spec x y with h | ⟨hi, hj, hkv, hpos⟩
      · rw [hbm] at h; simp at h; omega
      · rw [hbm] at hi hj hkv
        simp only at hi hj hkv
        have hkle : k ≤ x.length - i := by
          rw [hkv]
          have := cpl_le_left (x.drop i) (y.drop j)
          simpa using this
        have hA := ih (x.take i) (y.take j)
        have hB := ih (x.drop (i + k)) (y.drop (j + k))
        simp [List.length_take, List.length_drop] at hA hB
        omega

theorem matchTotalF_le_right : ∀ fuel (x y : PyStr), matchTotalF fuel x y ≤ y.length := by
  intro fuel
  induction fuel with
  | zero => intro x y; simp [matchTotalF]
  | succ fuel ih =>
    intro x y
    rcases hbm : bestMatch x y with ⟨i, j, k⟩
    simp only [matchTotalF, hbm]
    split
    · simp
    · rename_i hk0
      rcases bestMatch_spec x y with h | ⟨hi, hj, hkv, hpos⟩
      · rw [hbm] at h; simp at h; omega
      · rw [hbm] at hi hj hkv
        simp only at hi hj hkv
        have hkle : k ≤ y.length - j := by
          rw [hkv]
          have := cpl_le_right (x.drop i) (y.drop j)
          simpa using this
        have hA := ih (x.take i) (y.take j)
        have hB := ih (x.drop (i + k)) (y.drop (j + k))
        simp [List.length_take, List.length_drop] at hA hB
        omega

theorem matchTotal_le_left (x y : PyStr) : matchTotal x y ≤ x.length :=
  matchTotalF_le_left _ x y

theorem matchTotal_le_right (x y : PyStr) : matchTotal x y ≤ y.length :=
  matchTotalF_le_right _ x y

theorem matchTotal_self (x : PyStr) : matchTotal x x = x.length := by
  by_cases hx : x = []
  · subst hx; rfl
  · have hlen : 0 < x.length := List.length_pos.mpr hx
    unfold matchTotal
    obtain ⟨m, hm⟩ : ∃ m, x.length + x.length = m + 1 := ⟨x.length + x.length - 1, by omega⟩
    rw [hm]
    simp only [matchTotalF, bestMatch_self x hx]
    have hne : x.length ≠ 0 := by omega
    simp [hne, matchTotalF_nil, List.drop_length]

/-- A full-total match forces the two strings to be equal. -/
theorem matchTotalF_full : ∀ fuel (x y : PyStr),
    2 * matchTotalF fuel x y = x.length + y.length → x = y := by
  intro fuel
  induction fuel with
  | zero =>
    intro x y h
    simp [matchTotalF] at h
    have hx : x.length = 0 := by omega
    have hy : y.length = 0 := by omega
    rw [List.length_eq_zero] at hx hy
    rw [hx, hy]
  | succ fuel ih =>
    intro x y h
    rcases hbm : bestMatch x y with ⟨i, j, k⟩
    rw [matchTotalF, hbm] at h
    simp only at h
    by_cases hk0 : k = 0
    · rw [if_pos hk0] at h
      simp at h
      have hx : x.length = 0 := by omega
      have hy : y.length = 0 := by omega
      rw [List.length_eq_zero] at hx hy
      rw [hx, hy]
    · rw [if_neg hk0] at h
      rcases bestMatch_spec x y with hz | ⟨hi, hj, hkv, hpos⟩
      · rw [hbm] at hz; simp at hz; omega
      · rw [hbm] at hi hj hkv
        simp only at hi hj hkv
        have hkle1 : k ≤ x.length - i := by
          rw [hkv]; have := cpl_le_left (x.drop i) (y.drop j); simpa using this
        have hkle2 : k ≤ y.length - j := by
          rw [hkv]; have := cpl_le_right (x.drop i) (y.drop j); simpa using this
        have hA1 := matchTotalF_le_left fuel (x.take i) (y.take j)
        have hA2 := matchTotalF_le_right fuel (x.take i) (y.take j)
        have hB1 := matchTotalF_le_left fuel (x.drop (i + k)) (y.drop (j + k))
        have hB2 := matchTotalF_le_right fuel (x.drop (i + k)) (y.drop (j + k))
        simp [List.length_take, List.length_drop] at hA1 hA2 hB1 hB2
        have hT : x.take i = y.take j := by
          apply ih
          simp [List.length_take]
          omega
        have hD : x.drop (i + k) = y.drop (j + k) := by
          apply ih
          simp [List.length_drop]
          omega
        have hM : (x.drop i).take k = (y.drop j).take k := by
          rw [hkv]
          exact cpl_take (x.drop i) (y.drop j)
        calc x = x.take i ++ ((x.drop i).take k ++ (x.drop i).drop k) := by
                simp [List.take_append_drop]
          _ = y.take j ++ ((y.drop j).take k ++ (y.drop j).drop k) := by
                rw [hT, hM, List.drop_drop, List.drop_drop, hD]
          _ = y := by simp [List.take_append_drop]

theorem simFrac_den_pos (x y : PyStr) : 0 < (simFrac x y).2 := by
  unfold simFrac
  split
  · exact Nat.one_pos
  · rename_i h; simpa using Nat.pos_of_ne_zero h

theorem similarity_nonneg (a b : PyStr) : 0 ≤ similarity a b := by
  unfold similarity toQ
  positivity

theorem similarity_le_one (a b : PyStr) : similarity a b ≤ 1 := by
  unfold similarity simFrac toQ
  split
  · norm_num
  · rename_i h
    have hpos : (0 : ℚ) < ((a.length + b.length : Nat) : ℚ) := by
      exact_mod_cast Nat.pos_of_ne_zero h
    rw [div_le_one hpos]
    have h1 := matchTotal_le_left a b
    have h2 := matchTotal_le_right a b
    exact_mod_cast (by omega : 2 * matchTotal a b ≤ a.length + b.length)

theorem similarity_self (a : PyStr) : similarity a a = 1 := by
  unfold similarity simFrac toQ
  split
  · norm_num
  · rename_i h
    have hne : ((a.length + a.length : Nat) : ℚ) ≠ 0 := by
      exact_mod_cast h
    rw [div_eq_one_iff_eq hne]
    rw [matchTotal_self]
    push_cast
    ring

/-- `similarity` reaches `1` exactly on equal strings. -/
theorem similarity_eq_one_iff (a b : PyStr) : similarity a b = 1 ↔ a = b := by
  constructor
  · intro h
    unfold similarity simFrac toQ at h
    by_cases hT : a.length + b.length = 0
    · have ha : a.length = 0 := by omega
      have hb : b.length = 0 := by omega
      rw [List.length_eq_zero] at ha hb
      rw [ha, hb]
    · rw [if_neg hT] at h
      have hne : ((a.length + b.length : Nat) : ℚ) ≠ 0 := by exact_mod_cast hT
      rw [div_eq_one_iff_eq hne] at h
      simp only at h
      have : 2 * matchTotal a b = a.length + b.length := by exact_mod_cast h
      exact matchTotalF_full _ a b this
  · intro h
    rw [h]
    exact similarity_self b

theorem similarity_lt_one_of_ne (a b : PyStr) (h : a ≠ b) : similarity a b < 1 :=
  lt_of_le_of_ne (similarity_le_one a b) (fun he => h ((similarity_eq_one_iff a b).mp he))

/-- The cross-multiplication comparison agrees with the rational order. -/
theorem fracLt_iff (p q : Nat × Nat) (hp : 0 < p.2) (hq : 0 < q.2) :
    fracLt p q = true ↔ toQ p < toQ q := by
  unfold fracLt toQ
  simp only [decide_eq_true_eq]
  rw [div_lt_div_iff₀ (by exact_mod_cast hp) (by exact_mod_cast hq)]
  exact_mod_cast Iff.rfl

/-- Threshold comparisons on similarity scores, exactly as rationals. -/
theorem fracLt_simFrac_iff (n d : Nat) (hd : 0 < d) (a b : PyStr) :
    fracLt (n, d) (simFrac a b) = true ↔ (n : ℚ) / d < similarity a b :=
  fracLt_iff (n, d) (simFrac a b) hd (simFrac_den_pos a b)

/-- Comparison of two similarity scores, exactly as rationals. -/
theorem fracLt_simFrac_simFrac_iff (a b c d : PyStr) :
    fracLt (simFrac a b) (simFrac c d) = true ↔ similarity a b < similarity c d :=
  fracLt_iff _ _ (simFrac_den_pos a b) (simFrac_den_pos c d)

/-! ### Lemmas about lowercasing, stripping and replacement -/

theorem lowerN_idem (n : Nat) : lowerN (lowerN n) = lowerN n := by
  unfold lowerN
  split <;> first | rfl | (split <;> omega)

theorem pyLower_fix (t : PyStr) (h : ∀ c ∈ t, lowerN c = c) : pyLower t = t := by
  unfold pyLower
  induction t with
  | nil => rfl
  | cons c rest ih =>
    simp only [List.map_cons]
    rw [h c (by simp), ih (fun c hc => h c (by simp [hc]))]

theorem mem_pyLower (t : PyStr) (a : Nat) (h : a ∈ pyLower t) : ∃ b ∈ t, a = lowerN b := by
  unfold pyLower at h
  rcases List.mem_map.mp h with ⟨b, hb, he⟩
  exact ⟨b, hb, he.symm⟩

theorem noWSHead_pyLStrip (s : PyStr) : noWSHead (pyLStrip s) := by
  intro c hc
  have := List.head?_dropWhile_not isWS s
  unfold pyLStrip at hc
  rw [hc] at this
  exact this

theorem noWSHead_fix (t : PyStr) (h : noWSHead t) : pyLStrip t = t := by
  cases t with
  | nil => rfl
  | cons c rest =>
    unfold pyLStrip
    rw [List.dropWhile_cons, if_neg]
    rw [h c rfl]
    simp

theorem noWSLast_fix (t : PyStr) (h : noWSLast t) : pyRStrip t = t := by
  unfold pyRStrip
  have hh : noWSHead t.reverse := by
    intro c hc
    rw [List.head?_reverse] at hc
    exact h c hc
  rw [show t.reverse.dropWhile isWS = pyLStrip t.reverse from rfl]
  rw [noWSHead_fix t.reverse hh, List.reverse_reverse]

theorem noWSLast_pyRStrip (s : PyStr) : noWSLast (pyRStrip s) := by
  intro c hc
  unfold pyRStrip at hc
  rw [List.getLast?_reverse] at hc
  have := List.head?_dropWhile_not isWS s.reverse
  rw [hc] at this
  exact this

theorem noWSLast_of_suffix (s t : PyStr) (hsuf : s <:+ t) (h : noWSLast t) : noWSLast s := by
  intro c hc
  rcases hsuf with ⟨u, hu⟩
  apply h
  rw [← hu, List.getLast?_append, hc]
  rfl

theorem noWSHead_pyRStrip (t : PyStr) (h : noWSHead t) : noWSHead (pyRStrip t) := by
  intro c hc
  unfold pyRStrip at hc
  rw [List.head?_reverse] at hc
  rcases (List.dropWhile_suffix isWS : t.reverse.dropWhile isWS <:+ t.reverse) with ⟨u, hu⟩
  have hlast : t.reverse.getLast? = some c := by
    rw [← hu, List.getLast?_append, hc]
    rfl
  rw [List.getLast?_reverse] at hlast
  exact h c hlast

theorem noWSHead_pyStrip (s : PyStr) : noWSHead (pyStrip s) :=
  noWSHead_pyRStrip _ (noWSHead_pyLStrip s)

theorem noWSLast_pyStrip (s : PyStr) : noWSLast (pyStrip s) := noWSLast_pyRStrip _

theorem pyStrip_fix (t : PyStr) (h1 : noWSHead t) (h2 : noWSLast t) : pyStrip t = t := by
  unfold pyStrip
  rw [noWSHead_fix t h1, noWSLast_fix t h2]

theorem pyStrip_idem (s : PyStr) : pyStrip (pyStrip s) = pyStrip s :=
  pyStrip_fix _ (noWSHead_pyStrip s) (noWSLast_pyStrip s)

theorem mem_pyStrip (s : PyStr) (a : Nat) (h : a ∈ pyStrip s) : a ∈ s := by
  unfold pyStrip pyRStrip at h
  rw [List.mem_reverse] at h
  have h2 := (List.dropWhile_suffix isWS).mem h
  rw [List.mem_reverse] at h2
  exact (List.dropWhile_suffix isWS).mem h2

theorem pyIn_nil_left (s : PyStr) : pyIn [] s = true := by
  cases s <;> simp [pyIn, leadsOf]

theorem replaceGoF_no (p v : PyStr) : ∀ fuel s, pyIn p s = false → replaceGoF p v fuel s = s := by
  intro fuel
  induction fuel with
  | zero => intro s _; rfl
  | succ fuel ih =>
    intro s hs
    cases s with
    | nil => rfl
    | cons c rest =>
      unfold pyIn at hs
      simp only [Bool.or_eq_false_iff] at hs
      unfold replaceGoF
      rw [if_neg (by simp [hs.1])]
      rw [ih rest hs.2]

theorem pyReplace_no (s p v : PyStr) (h : pyIn p s = false) : pyReplace s p v = s := by
  unfold pyReplace
  have hp : p ≠ [] := by
    intro he
    rw [he, pyIn_nil_left] at h
    cases h
  rw [if_neg (by simpa [List.isEmpty_iff] using hp)]
  exact replaceGoF_no p v s.length s h

theorem mem_replaceGoF (p v : PyStr) :
    ∀ fuel s a, a ∈ replaceGoF p v fuel s → a ∈ s ∨ a ∈ v := by
  intro fuel
  induction fuel with
  | zero => intro s a ha; exact Or.inl ha
  | succ fuel ih =>
    intro s a ha
    cases s with
    | nil => exact Or.inl ha
    | cons c rest =>
      unfold replaceGoF at ha
      by_cases hl : leadsOf p (c :: rest) = true
      · rw [if_pos hl] at ha
        rcases List.mem_append.mp ha with hv | hr
        · exact Or.inr hv
        · rcases ih _ a hr with hm | hv
          · exact Or.inl (List.mem_cons_of_mem c (List.mem_of_mem_drop hm))
          · exact Or.inr hv
      · rw [if_neg hl] at ha
        rcases List.mem_cons.mp ha with he | hr
        · exact Or.inl (by simp [he])
        · rcases ih _ a hr with hm | hv
          · exact Or.inl (List.mem_cons_of_mem c hm)
          · exact Or.inr hv

theorem replaceGoF_ne_nil (p v : PyStr) (hv : v ≠ []) :
    ∀ fuel s, s ≠ [] → replaceGoF p v fuel s ≠ [] := by
  intro fuel s hs
  cases fuel with
  | zero => exact hs
  | succ fuel =>
    cases s with
    | nil => exact absurd rfl hs
    | cons c rest =>
      unfold replaceGoF
      split
      · simp [hv]
      · simp

theorem noWSHead_replaceGoF (p v : PyStr) (hv : v ≠ []) (hvh : noWSHead v) :
    ∀ fuel s, noWSHead s → noWSHead (replaceGoF p v fuel s) := by
  intro fuel
  induction fuel with
  | zero => intro s hs; exact hs
  | succ fuel ih =>
    intro s hs
    cases s with
    | nil => intro c hc; cases hc
    | cons c rest =>
      unfold replaceGoF
      split
      · intro a ha
        rw [List.head?_append_of_ne_nil v hv] at ha
        exact hvh a ha
      · intro a ha
        simp only [List.head?_cons, Option.some.injEq] at ha
        exact hs a (by rw [← ha]; rfl)

theorem noWSLast_replaceGoF (p v : PyStr) (hv : v ≠ []) (hvl : noWSLast v) :
    ∀ fuel s, noWSLast s → noWSLast (replaceGoF p v fuel s) := by
  intro fuel
  induction fuel with
  | zero => intro s hs; exact hs
  | succ fuel ih =>
    intro s hs
    cases s with
    | nil => intro c hc; cases hc
    | cons c rest =>
      unfold replaceGoF
      split
      · have hrec := ih (rest.drop (p.length - 1))
          (noWSLast_of_suffix _ _
            (List.IsSuffix.trans (List.drop_suffix _ rest) ⟨[c], rfl⟩) hs)
        intro a ha
        rw [List.getLast?_append] at ha
        by_cases hr : replaceGoF p v fuel (rest.drop (p.length - 1)) = []
        · rw [hr] at ha
          simp at ha
          exact hvl a ha
        · have hsome : (replaceGoF p v fuel (rest.drop (p.length - 1))).getLast?.isSome := by
            rw [List.getLast?_isSome]
            exact hr
          rcases Option.isSome_iff_exists.mp hsome with ⟨b, hb⟩
          rw [hb] at ha
          simp at ha
          rw [← ha]
          exact hrec b hb
      · intro a ha
        by_cases hr : replaceGoF p v fuel rest = []
        · rw [hr] at ha
          simp at ha
          have hrest : rest = [] := by
            by_contra hne
            exact replaceGoF_ne_nil p v hv fuel rest hne hr
          apply hs a
          rw [hrest, ← ha]
          rfl
        · have hsome : (replaceGoF p v fuel rest).getLast?.isSome := by
            rw [List.getLast?_isSome]; exact hr
          rcases Option.isSome_iff_exists.mp hsome with ⟨b, hb⟩
          have hb2 : (c :: replaceGoF p v fuel rest).getLast? = some b := by
            rw [List.getLast?_cons, hb]
            rfl
          rw [hb2] at ha
          have hab : b = a := Option.some.inj ha
          have hlast := ih rest (noWSLast_of_suffix rest (c :: rest) ⟨[c], rfl⟩ hs) b hb
          rw [← hab]
          exact hlast

theorem noWSHead_of_all (l : PyStr) (h : l.head?.all (fun c => !isWS c) = true) : noWSHead l := by
  intro c hc
  rw [hc] at h
  simpa using h

theorem noWSLast_of_all (l : PyStr) (h : l.getLast?.all (fun c => !isWS c) = true) :
    noWSLast l := by
  intro c hc
  rw [hc] at h
  simpa using h

/-- The synonym table facts the idempotence analysis needs: keys and
values are non-empty, values have no edge whitespace and are already
lowercase. -/
theorem synonyms_ok : ∀ pr ∈ synonyms, pr.1 ≠ [] ∧ pr.2 ≠ [] ∧
    pr.2.head?.all (fun c => !isWS c) = true ∧ pr.2.getLast?.all (fun c => !isWS c) = true ∧
    ∀ c ∈ pr.2, lowerN c = c := by
  decide

theorem normInv_start (q : PyStr) : normInv (pyStrip (pyLower q)) := by
  refine ⟨noWSHead_pyStrip _, noWSLast_pyStrip _, ?_⟩
  intro c hc
  rcases mem_pyLower q c (mem_pyStrip _ c hc) with ⟨b, _, hb⟩
  rw [hb]
  exact lowerN_idem b

theorem normInv_pyReplace (t k v : PyStr) (ht : normInv t) (hk : k ≠ []) (hv : v ≠ [])
    (hvh : noWSHead v) (hvl : noWSLast v) (hvc : ∀ c ∈ v, lowerN c = c) :
    normInv (pyReplace t k v) := by
  rcases ht with ⟨h1, h2, h3⟩
  unfold pyReplace
  rw [if_neg (by simpa [List.isEmpty_iff] using hk)]
  refine ⟨noWSHead_replaceGoF k v hv hvh _ t h1, noWSLast_replaceGoF k v hv hvl _ t h2, ?_⟩
  intro c hc
  rcases mem_replaceGoF k v _ t c hc with hm | hm
  · exact h3 c hm
  · exact hvc c hm

theorem normInv_normalize (q : PyStr) : normInv (normalize_text q) := by
  unfold normalize_text
  apply foldl_inv _ _ _ normInv (normInv_start q)
  intro acc pr hpr hacc
  rcases synonyms_ok pr hpr with ⟨hk, hv, hvh, hvl, hvc⟩
  exact normInv_pyReplace acc pr.1 pr.2 hacc hk hv (noWSHead_of_all _ hvh)
    (noWSLast_of_all _ hvl) hvc

theorem normalize_text_fix (t : PyStr) (ht : normInv t)
    (h : ∀ pr ∈ synonyms, pyIn pr.1 t = false) : normalize_text t = t := by
  unfold normalize_text
  rcases ht with ⟨h1, h2, h3⟩
  rw [pyLower_fix t h3, pyStrip_fix t h1 h2]
  apply foldl_inv _ _ _ (fun acc => acc = t) rfl
  intro acc pr hpr hacc
  rw [hacc]
  exact pyReplace_no t pr.1 pr.2 (h pr hpr)

/-! ### Lemmas about the shared best-score loop -/

theorem toQ_nonneg (p : Nat × Nat) : 0 ≤ toQ p := by
  unfold toQ
  positivity

theorem bestLoop_go {α : Type _} :
    ∀ (pairs : List (α × (Nat × Nat))) (init : Option α × (Nat × Nat)),
    (∀ p ∈ pairs, 0 < p.2.2) → 0 < init.2.2 →
    0 < (pairs.foldl (fun acc p => if fracLt acc.2 p.2 then (some p.1, p.2) else acc) init).2.2 ∧
    toQ init.2 ≤
      toQ (pairs.foldl (fun acc p => if fracLt acc.2 p.2 then (some p.1, p.2) else acc) init).2 ∧
    (∀ p ∈ pairs, toQ p.2 ≤
      toQ (pairs.foldl (fun acc p => if fracLt acc.2 p.2 then (some p.1, p.2) else acc) init).2) ∧
    ((pairs.foldl (fun acc p => if fracLt acc.2 p.2 then (some p.1, p.2) else acc) init) = init ∨
      ∃ p ∈ pairs,
        (pairs.foldl (fun acc p => if fracLt acc.2 p.2 then (some p.1, p.2) else acc) init) =
          (some p.1, p.2)) := by
  intro pairs
  induction pairs with
  | nil =>
    intro init _ hinit
    exact ⟨hinit, le_refl _, by simp, Or.inl rfl⟩
  | cons p rest ih =>
    intro init hden hinit
    have hp : 0 < p.2.2 := hden p (by simp)
    simp only [List.foldl_cons]
    by_cases hlt : fracLt init.2 p.2 = true
    · rw [if_pos hlt]
      have hQ : toQ init.2 < toQ p.2 := (fracLt_iff _ _ hinit hp).mp hlt
      have := ih (some p.1, p.2) (fun q hq => hden q (by simp [hq])) hp
      rcases this with ⟨hpos, hmono, hge, hstruct⟩
      refine ⟨hpos, le_trans (le_of_lt hQ) hmono, ?_, ?_⟩
      · intro q hq
        rcases List.mem_cons.mp hq with he | hm
        · rw [he]; exact hmono
        · exact hge q hm
      · rcases hstruct with he | ⟨q, hq, he⟩
        · exact Or.inr ⟨p, by simp, he⟩
        · exact Or.inr ⟨q, by simp [hq], he⟩
    · rw [if_neg hlt]
      have hQ : toQ p.2 ≤ toQ init.2 := by
        by_contra hc
        push_neg at hc
        exact hlt ((fracLt_iff _ _ hinit hp).mpr hc)
      have := ih init (fun q hq => hden q (by simp [hq])) hinit
      rcases this with ⟨hpos, hmono, hge, hstruct⟩
      refine ⟨hpos, hmono, ?_, ?_⟩
      · intro q hq
        rcases List.mem_cons.mp hq with he | hm
        · rw [he]; exact le_trans hQ hmono
        · exact hge q hm
      · rcases hstruct with he | ⟨q, hq, he⟩
        · exact Or.inl he
        · exact Or.inr ⟨q, by simp [hq], he⟩

theorem bestLoop_first {α : Type _} (pre : List (α × (Nat × Nat))) (c : α) (v : Nat × Nat)
    (post : List (α × (Nat × Nat))) (hpre : ∀ p ∈ pre, 0 < p.2.2) (hvden : 0 < v.2)
    (hvpos : 0 < toQ v) (hlt : ∀ p ∈ pre, toQ p.2 < toQ v)
    (hpost : ∀ p ∈ post, 0 < p.2.2 ∧ toQ p.2 ≤ toQ v) :
    bestLoop (pre ++ (c, v) :: post) = (some c, v) := by
  unfold bestLoop
  rw [List.foldl_append]
  have hafter : ∀ acc : Option α × (Nat × Nat), 0 < acc.2.2 → toQ acc.2 < toQ v →
      (pre.foldl (fun acc p => if fracLt acc.2 p.2 then (some p.1, p.2) else acc) acc).2.2 > 0 ∧
      toQ (pre.foldl (fun acc p => if fracLt acc.2 p.2 then (some p.1, p.2) else acc) acc).2 <
        toQ v := by
    intro acc hd hq
    have := foldl_inv pre (fun acc p => if fracLt acc.2 p.2 then (some p.1, p.2) else acc) acc
      (fun acc => 0 < acc.2.2 ∧ toQ acc.2 < toQ v) ⟨hd, hq⟩ ?_
    · exact ⟨this.1, this.2⟩
    · intro acc2 p hp hacc2
      dsimp only
      split
      · exact ⟨hpre p hp, hlt p hp⟩
      · exact hacc2
  have hinit0 : toQ ((none : Option α), (0, 1)).2 = 0 := by
    unfold toQ
    norm_num
  rcases hafter (none, (0, 1)) (by norm_num) (by rw [hinit0]; exact hvpos) with ⟨hd1, hq1⟩
  simp only [List.foldl_cons]
  rw [if_pos ((fracLt_iff _ _ hd1 hvden).mpr hq1)]
  apply foldl_inv _ _ _ (fun acc => acc = (some c, v)) rfl
  intro acc p hp hacc
  rw [hacc]
  dsimp only
  rw [if_neg]
  intro hc
  exact absurd ((fracLt_iff _ _ hvden (hpost p hp).1).mp hc) (not_lt.mpr (hpost p hp).2)

theorem bestLoop_props {α : Type _} (pairs : List (α × (Nat × Nat)))
    (hden : ∀ p ∈ pairs, 0 < p.2.2) :
    0 < (bestLoop pairs).2.2 ∧ (∀ p ∈ pairs, toQ p.2 ≤ toQ (bestLoop pairs).2) ∧
    (bestLoop pairs = (none, (0, 1)) ∨ ∃ p ∈ pairs, bestLoop pairs = (some p.1, p.2)) := by
  unfold bestLoop
  have h := bestLoop_go pairs (none, (0, 1)) hden (by norm_num)
  exact ⟨h.1, h.2.2.1, h.2.2.2⟩

theorem toQ_init : toQ ((0 : Nat), (1 : Nat)) = 0 := by
  unfold toQ
  norm_num

/-- The finder pattern shared by all similarity phases: the produced
candidate is `some` exactly when some pair scores strictly above the
threshold `n/d`. -/
theorem bestLoop_thresh {α : Type _} (pairs : List (α × (Nat × Nat))) (n d : Nat) (hd : 0 < d)
    (hden : ∀ p ∈ pairs, 0 < p.2.2) :
    ((if fracLt (n, d) (bestLoop pairs).2 then (bestLoop pairs).1 else none).isSome = true ↔
      ∃ p ∈ pairs, (n : ℚ) / d < toQ p.2) := by
  obtain ⟨hpos, hge, hstruct⟩ := bestLoop_props pairs hden
  constructor
  · intro h
    by_cases hf : fracLt (n, d) (bestLoop pairs).2 = true
    · have hQ : (n : ℚ) / d < toQ (bestLoop pairs).2 := (fracLt_iff (n, d) _ hd hpos).mp hf
      rcases hstruct with he | ⟨p, hp, he⟩
      · rw [he] at hQ
        have h0 : ¬((n : ℚ) / d < toQ ((0 : Nat), (1 : Nat))) := by
          rw [toQ_init]
          exact not_lt.mpr (by positivity)
        exact absurd hQ h0
      · exact ⟨p, hp, by rw [he] at hQ; exact hQ⟩
    · rw [if_neg hf] at h
      cases h
  · rintro ⟨p, hp, hQ⟩
    have hQ2 : (n : ℚ) / d < toQ (bestLoop pairs).2 := lt_of_lt_of_le hQ (hge p hp)
    have hf : fracLt (n, d) (bestLoop pairs).2 = true := (fracLt_iff _ _ hd hpos).mpr hQ2
    rw [if_pos hf]
    rcases hstruct with he | ⟨p', _, he⟩
    · rw [he] at hQ2
      rw [toQ_init] at hQ2
      exact absurd hQ2 (not_lt.mpr (by positivity))
    · rw [he]
      rfl

theorem bestLoop_some_mem {α : Type _} (pairs : List (α × (Nat × Nat)))
    (hden : ∀ p ∈ pairs, 0 < p.2.2) (c : α) (h : (bestLoop pairs).1 = some c) :
    ∃ s, (c, s) ∈ pairs := by
  obtain ⟨_, _, hstruct⟩ := bestLoop_props pairs hden
  rcases hstruct with he | ⟨p, hp, he⟩
  · rw [he] at h
    cases h
  · rw [he] at h
    cases h
    exact ⟨p.2, hp⟩

/-! ### Lemmas about the entity finders -/

theorem qna_pairs_den (bank : List QnA) (q : PyStr) :
    ∀ p ∈ bank.map (fun qa => (qa, simFrac q (qnaKey qa))), 0 < p.2.2 := by
  intro p hp
  rcases List.mem_map.mp hp with ⟨qa, _, he⟩
  rw [← he]
  exact simFrac_den_pos _ _

/-- `find_semantic_qna` answers exactly when some bank entry scores
strictly above `0.7` against the query. -/
theorem find_semantic_qna_isSome_iff (bank : List QnA) (q : PyStr) :
    (find_semantic_qna bank q).isSome = true ↔
      ∃ qa ∈ bank, (7 : ℚ) / 10 < similarity q (qnaKey qa) := by
  unfold find_semantic_qna
  rw [bestLoop_thresh _ 7 10 (by norm_num) (qna_pairs_den bank q)]
  constructor
  · rintro ⟨p, hp, hq⟩
    rcases List.mem_map.mp hp with ⟨qa, hqa, he⟩
    exact ⟨qa, hqa, by rw [← he] at hq; exact hq⟩
  · rintro ⟨qa, hqa, hq⟩
    exact ⟨(qa, simFrac q (qnaKey qa)), List.mem_map.mpr ⟨qa, hqa, rfl⟩, hq⟩

/-- The first bank entry whose lowercased question equals the normalized
query wins `find_semantic_qna` (an exact match scores `1.0`, every other
entry scores strictly below `1.0`, and `1.0 > 0.7`). -/
theorem find_semantic_qna_first (pre : List QnA) (e : QnA) (post : List QnA) (q : PyStr)
    (he : qnaKey e = q) (hpre : ∀ x ∈ pre, qnaKey x ≠ q) :
    find_semantic_qna (pre ++ e :: post) q = some e := by
  unfold find_semantic_qna
  rw [List.map_append, List.map_cons]
  rw [bestLoop_first (pre.map (fun qa => (qa, simFrac q (qnaKey qa)))) e (simFrac q (qnaKey e))
    (post.map (fun qa => (qa, simFrac q (qnaKey qa)))) (qna_pairs_den pre q)
    (simFrac_den_pos _ _) ?hpos ?hlt ?hpost]
  case hpos =>
    rw [he]
    show (0 : ℚ) < similarity q q
    rw [similarity_self]
    norm_num
  case hlt =>
    intro p hp
    rcases List.mem_map.mp hp with ⟨x, hx, hee⟩
    rw [← hee, he]
    show similarity q (qnaKey x) < similarity q q
    rw [similarity_self]
    exact similarity_lt_one_of_ne _ _ (fun hc => hpre x hx (by rw [← hc]))
  case hpost =>
    intro p hp
    rcases List.mem_map.mp hp with ⟨x, _, hee⟩
    refine ⟨by rw [← hee]; exact simFrac_den_pos _ _, ?_⟩
    rw [← hee, he]
    show similarity q (qnaKey x) ≤ similarity q q
    rw [similarity_self]
    exact similarity_le_one _ _
  rw [if_pos]
  have : (7 : ℚ) / 10 < toQ (simFrac q (qnaKey e)) := by
    rw [he]
    show (7 : ℚ) / 10 < similarity q q
    rw [similarity_self]
    norm_num
  exact (fracLt_iff _ _ (by norm_num) (simFrac_den_pos _ _)).mpr this

theorem cal_pairs_den (evs : List CalEvent) (q : PyStr) :
    ∀ p ∈ evs.map (fun ev => (ev, simFrac q (evKey ev))), 0 < p.2.2 := by
  intro p hp
  rcases List.mem_map.mp hp with ⟨ev, _, he⟩
  rw [← he]
  exact simFrac_den_pos _ _

/-- `find_calendar_event` answers exactly when some event scores strictly
above `0.55` against the query. -/
theorem find_calendar_event_isSome_iff (evs : List CalEvent) (q : PyStr) :
    (find_calendar_event evs q).isSome = true ↔
      ∃ ev ∈ evs, (55 : ℚ) / 100 < similarity q (evKey ev) := by
  unfold find_calendar_event
  rw [bestLoop_thresh _ 55 100 (by norm_num) (cal_pairs_den evs q)]
  constructor
  · rintro ⟨p, hp, hq⟩
    rcases List.mem_map.mp hp with ⟨ev, hev, he⟩
    exact ⟨ev, hev, by rw [← he] at hq; exact hq⟩
  · rintro ⟨ev, hev, hq⟩
    exact ⟨(ev, simFrac q (evKey ev)), List.mem_map.mpr ⟨ev, hev, rfl⟩, hq⟩

theorem subj_pairs_den (subs : List Subject) (q : PyStr) :
    ∀ p ∈ subs.flatMap (fun s =>
      [(s, simFrac q (pyLower (s.name.getD []))), (s, simFrac q (pyLower (s.code.getD [])))]),
      0 < p.2.2 := by
  intro p hp
  rcases List.mem_flatMap.mp hp with ⟨s, _, hm⟩
  rcases List.mem_cons.mp hm with he | hm2
  · rw [he]; exact simFrac_den_pos _ _
  · rcases List.mem_cons.mp hm2 with he | hm3
    · rw [he]; exact simFrac_den_pos _ _
    · cases hm3

/-- `find_subject_by_name_or_code` answers exactly when some subject has a
name or code key scoring strictly above `0.6` against the query. -/
theorem find_subject_isSome_iff (subs : List Subject) (q : PyStr) :
    (find_subject_by_name_or_code subs q).isSome = true ↔
      ∃ s ∈ subs, (6 : ℚ) / 10 < similarity q (pyLower (s.name.getD [])) ∨
        (6 : ℚ) / 10 < similarity q (pyLower (s.code.getD [])) := by
  unfold find_subject_by_name_or_code
  rw [bestLoop_thresh _ 6 10 (by norm_num) (subj_pairs_den subs q)]
  constructor
  · rintro ⟨p, hp, hq⟩
    rcases List.mem_flatMap.mp hp with ⟨s, hs, hm⟩
    rcases List.mem_cons.mp hm with he | hm2
    · exact ⟨s, hs, Or.inl (by rw [he] at hq; exact hq)⟩
    · rcases List.mem_cons.mp hm2 with he | hm3
      · exact ⟨s, hs, Or.inr (by rw [he] at hq; exact hq)⟩
      · cases hm3
  · rintro ⟨s, hs, hq | hq⟩
    · exact ⟨(s, simFrac q (pyLower (s.name.getD []))),
        List.mem_flatMap.mpr ⟨s, hs, by simp⟩, hq⟩
    · exact ⟨(s, simFrac q (pyLower (s.code.getD []))),
        List.mem_flatMap.mpr ⟨s, hs, by simp⟩, hq⟩

theorem dept_pairs_den (depts : List Department) (q : PyStr) :
    ∀ p ∈ depts.flatMap (fun d =>
      [(d, simFrac q (deptNameKey d)), (d, simFrac q (deptShortKey d))]), 0 < p.2.2 := by
  intro p hp
  rcases List.mem_flatMap.mp hp with ⟨d, _, hm⟩
  rcases List.mem_cons.mp hm with he | hm2
  · rw [he]; exact simFrac_den_pos _ _
  · rcases List.mem_cons.mp hm2 with he | hm3
    · rw [he]; exact simFrac_den_pos _ _
    · cases hm3

theorem findDeptSub_eq_none (q : PyStr) :
    ∀ l : List Department, (∀ d ∈ l, deptSubHit q d = false) → findDeptSub q l = none := by
  intro l
  induction l with
  | nil => intro _; rfl
  | cons d rest ih =>
    intro h
    unfold findDeptSub
    rw [if_neg]
    · exact ih (fun d' hd' => h d' (by simp [hd']))
    · have := h d (by simp)
      unfold deptSubHit at this
      simp [this]

theorem findDeptSub_first (q : PyStr) (pre : List Department) (d : Department)
    (post : List Department) (hpre : ∀ x ∈ pre, deptSubHit q x = false)
    (hd : deptSubHit q d = true) : findDeptSub q (pre ++ d :: post) = some d := by
  induction pre with
  | nil =>
    unfold findDeptSub
    rw [List.nil_append]
    unfold deptSubHit at hd
    simp only [findDeptSub]
    rw [if_pos (by simpa using hd)]
  | cons x rest ih =>
    have hx := hpre x (by simp)
    unfold deptSubHit at hx
    simp only [List.cons_append, findDeptSub]
    rw [if_neg (by simp_all)]
    exact ih (fun y hy => hpre y (by simp [hy]))

theorem findDeptSub_mem (q : PyStr) :
    ∀ l : List Department, ∀ d, findDeptSub q l = some d → d ∈ l := by
  intro l
  induction l with
  | nil => intro d h; cases h
  | cons x rest ih =>
    intro d h
    unfold findDeptSub at h
    by_cases hc : (pyIn (deptNameKey x) q || pyIn (deptShortKey x) q) = true
    · rw [if_pos hc] at h
      cases h
      simp
    · rw [if_neg hc] at h
      exact List.mem_cons_of_mem x (ih d h)

/-- The first department hit by the substring phase is returned, with no
similarity scoring. -/
theorem find_department_substring_first (q : PyStr) (pre : List Department) (d : Department)
    (post : List Department) (hpre : ∀ x ∈ pre, deptSubHit q x = false)
    (hd : deptSubHit q d = true) : find_department (pre ++ d :: post) q = some d := by
  unfold find_department
  rw [findDeptSub_first q pre d post hpre hd]

/-- With no substring hit at all, `find_department` answers exactly when
some department has a key scoring strictly above `0.6`. -/
theorem find_department_isSome_iff (depts : List Department) (q : PyStr)
    (hno : ∀ d ∈ depts, deptSubHit q d = false) :
    (find_department depts q).isSome = true ↔
      ∃ d ∈ depts, (6 : ℚ) / 10 < similarity q (deptNameKey d) ∨
        (6 : ℚ) / 10 < similarity q (deptShortKey d) := by
  unfold find_department
  rw [findDeptSub_eq_none q depts hno]
  rw [bestLoop_thresh _ 6 10 (by norm_num) (dept_pairs_den depts q)]
  constructor
  · rintro ⟨p, hp, hq⟩
    rcases List.mem_flatMap.mp hp with ⟨d, hd, hm⟩
    rcases List.mem_cons.mp hm with he | hm2
    · exact ⟨d, hd, Or.inl (by rw [he] at hq; exact hq)⟩
    · rcases List.mem_cons.mp hm2 with he | hm3
      · exact ⟨d, hd, Or.inr (by rw [he] at hq; exact hq)⟩
      · cases hm3
  · rintro ⟨d, hd, hq | hq⟩
    · exact ⟨(d, simFrac q (deptNameKey d)), List.mem_flatMap.mpr ⟨d, hd, by simp⟩, hq⟩
    · exact ⟨(d, simFrac q (deptShortKey d)), List.mem_flatMap.mpr ⟨d, hd, by simp⟩, hq⟩

theorem find_department_mem (depts : List Department) (q : PyStr) (d : Department)
    (h : find_department depts q = some d) : d ∈ depts := by
  unfold find_department at h
  cases hsub : findDeptSub q depts with
  | some d' =>
    rw [hsub] at h
    cases h
    exact findDeptSub_mem q depts _ hsub
  | none =>
    rw [hsub] at h
    by_cases hf : fracLt (6, 10)
        (bestLoop (depts.flatMap (fun d =>
          [(d, simFrac q (deptNameKey d)), (d, simFrac q (deptShortKey d))]))).2 = true
    · rw [if_pos hf] at h
      rcases bestLoop_some_mem _ (dept_pairs_den depts q) d h with ⟨s, hs⟩
      rcases List.mem_flatMap.mp hs with ⟨d', hd', hm⟩
      rcases List.mem_cons.mp hm with he | hm2
      · cases he; exact hd'
      · rcases List.mem_cons.mp hm2 with he | hm3
        · cases he; exact hd'
        · cases hm3
    · rw [if_neg hf] at h
      cases h

/-! ### Lemmas about the handler chain -/

theorem firstSome_pos {α : Type _} :
    ∀ (l : List (Option α)) (i : Nat) (r : α), (∀ j, j < i → l[j]? = some none) →
    l[i]? = some (some r) → firstSome l = some r := by
  intro l
  induction l with
  | nil => intro i r _ h; simp at h
  | cons o rest ih =>
    intro i r hbefore hi
    cases i with
    | zero =>
      simp at hi
      rw [hi]
      rfl
    | succ i =>
      have h0 := hbefore 0 (by omega)
      simp at h0
      rw [h0]
      show firstSome rest = some r
      exact ih i r (fun j hj => by
        have := hbefore (j + 1) (by omega)
        simpa using this) (by simpa using hi)

theorem firstSome_none {α : Type _} :
    ∀ l : List (Option α), (∀ o ∈ l, o = none) → firstSome l = none := by
  intro l
  induction l with
  | nil => intro _; rfl
  | cons o rest ih =>
    intro h
    have h0 := h o (by simp)
    rw [h0]
    show firstSome rest = none
    exact ih (fun o' ho' => h o' (by simp [ho']))

theorem firstSome_mem {α : Type _} :
    ∀ l : List (Option α), ∀ r : α, firstSome l = some r → some r ∈ l := by
  intro l
  induction l with
  | nil => intro r h; cases h
  | cons o rest ih =>
    intro r h
    cases o with
    | some x =>
      have : some x = some r := h
      rw [this]
      simp
    | none =>
      have : firstSome rest = some r := h
      exact List.mem_cons_of_mem _ (ih r this)

theorem tryQna_none (kb : KBase) (q : PyStr) (h : find_semantic_qna kb.sem_qna q = none) :
    tryQna kb q = none := by
  simp [tryQna, h]

theorem tryCalLink_none (q : PyStr) (h : intent_match q calLinkKws = false) :
    tryCalLink q = none := by
  simp [tryCalLink, h]

theorem tryCalEvent_none (kb : KBase) (q : PyStr) (h : intent_match q calEventKws = false) :
    tryCalEvent kb q = none := by
  simp [tryCalEvent, h]

theorem tryVP_none (kb : KBase) (q : PyStr) (h : contains_any q vpWords = false) :
    tryVP kb q = none := by
  simp [tryVP, h]

theorem tryPrincipal_none (kb : KBase) (q : PyStr) (h : contains_any q prWords = false) :
    tryPrincipal kb q = none := by
  simp [tryPrincipal, h]

theorem tryHod_none (kb : KBase) (q : PyStr) (h : intent_match q hodKws = false) :
    tryHod kb q = none := by
  simp [tryHod, h]

theorem tryFaculty_none (kb : KBase) (q : PyStr) (h : intent_match q facKws = false) :
    tryFaculty kb q = none := by
  simp [tryFaculty, h]

theorem tryFees_none (kb : KBase) (q : PyStr) (h : intent_match q feeKws = false) :
    tryFees kb q = none := by
  simp [tryFees, h]

theorem tryDeptInfo_none (kb : KBase) (q : PyStr)
    (h : (intent_match q deptKws && !intent_match q deptExclKws) = false) :
    tryDeptInfo kb q = none := by
  simp only [tryDeptInfo]
  rw [if_neg]
  simp [h]

theorem tryTimetable_none (kb : KBase) (q : PyStr) (h : intent_match q ttKws = false) :
    tryTimetable kb q = none := by
  simp [tryTimetable, h]

theorem trySubjects_none (kb : KBase) (q : PyStr) (h : intent_match q subjKws = false) :
    trySubjects kb q = none := by
  simp [trySubjects, h]

theorem tryFacilities_none (kb : KBase) (q : PyStr) (h : intent_match q facilityKws = false) :
    tryFacilities kb q = none := by
  simp [tryFacilities, h]

theorem tryLabs_none (kb : KBase) (q : PyStr) (h : intent_match q labKws = false) :
    tryLabs kb q = none := by
  simp [tryLabs, h]

theorem tryEvents_none (kb : KBase) (q : PyStr) (h : intent_match q eventKws = false) :
    tryEvents kb q = none := by
  simp [tryEvents, h]

theorem tryCollegeName_none (kb : KBase) (q : PyStr) (h : intent_match q collegeKws = false) :
    tryCollegeName kb q = none := by
  simp [tryCollegeName, h]

theorem tryDirections_none (kb : KBase) (q : PyStr) (h : contains_any q dirWords = false) :
    tryDirections kb q = none := by
  simp [tryDirections, h]

/-! ### Totality of the router under well-named records -/

theorem pyLower_eq_nil_iff (x : PyStr) : pyLower x = [] ↔ x = [] := by
  unfold pyLower
  exact List.map_eq_nil_iff

theorem name_isSome_of_lower_ne_nil (o : Option PyStr) (h : pyLower (o.getD []) ≠ []) :
    ∃ n, o = some n := by
  cases o with
  | none => simp [pyLower] at h
  | some n => exact ⟨n, rfl⟩

theorem seqNames_ok : ∀ fs : List FacultyM, (∀ f ∈ fs, f.name.isSome = true) →
    ∃ ms, seqNames fs = Except.ok ms := by
  intro fs
  induction fs with
  | nil => intro _; exact ⟨[], rfl⟩
  | cons f rest ih =>
    intro h
    obtain ⟨n, hn⟩ := Option.isSome_iff_exists.mp (h f (by simp))
    obtain ⟨ms, hms⟩ := ih (fun f' hf' => h f' (by simp [hf']))
    refine ⟨n :: ms, ?_⟩
    unfold seqNames
    rw [hn, hms]
    rfl

theorem facultyAnswer_ok (d : Department) (hn : d.name.isSome = true)
    (hf : ∀ f ∈ d.faculty.getD [], f.name.isSome = true) : isOkRes (facultyAnswer d) := by
  obtain ⟨n, hn2⟩ := Option.isSome_iff_exists.mp hn
  obtain ⟨ms, hms⟩ := seqNames_ok _ hf
  unfold facultyAnswer
  rw [hms, hn2]
  exact ⟨_, rfl⟩

theorem feesDeptAnswer_ok (kb : KBase) (d : Department) (hn : d.name.isSome = true) :
    isOkRes (feesDeptAnswer kb d) := by
  obtain ⟨n, hn2⟩ := Option.isSome_iff_exists.mp hn
  unfold feesDeptAnswer
  rw [hn2]
  dsimp only
  split
  · rename_i e heq
    split at heq <;> cases heq
  · split
    · rename_i heq2 e2 heq
      split at heq <;> cases heq
    · exact ⟨_, rfl⟩

theorem facilityDetail_ok (f : Facility) (h : pyLower (f.name.getD []) ≠ []) :
    isOkRes (facilityDetail f) := by
  obtain ⟨n, hn⟩ := name_isSome_of_lower_ne_nil f.name h
  unfold facilityDetail
  rw [hn]
  exact ⟨_, rfl⟩

theorem facilityScan_ok (q : PyStr) :
    ∀ fs : List Facility, ∀ r, facilityScan q fs = some r → isOkRes r := by
  intro fs
  induction fs with
  | nil => intro r h; cases h
  | cons f rest ih =>
    intro r h
    unfold facilityScan at h
    by_cases hc : (!(pyLower (f.name.getD [])).isEmpty && pyIn (pyLower (f.name.getD [])) q) = true
    · rw [if_pos hc] at h
      cases h
      apply facilityDetail_ok
      simp only [Bool.and_eq_true, Bool.not_eq_true'] at hc
      simpa [List.isEmpty_iff] using hc.1
    · rw [if_neg hc] at h
      exact ih r h

theorem facilityDirScan_ok (q : PyStr) :
    ∀ fs : List Facility, ∀ r, facilityDirScan q fs = some r → isOkRes r := by
  intro fs
  induction fs with
  | nil => intro r h; cases h
  | cons f rest ih =>
    intro r h
    unfold facilityDirScan at h
    by_cases hc : (!(pyLower (f.name.getD [])).isEmpty && pyIn (pyLower (f.name.getD [])) q) = true
    · rw [if_pos hc] at h
      cases h
      have hne : pyLower (f.name.getD []) ≠ [] := by
        simp only [Bool.and_eq_true, Bool.not_eq_true'] at hc
        simpa [List.isEmpty_iff] using hc.1
      obtain ⟨n, hn⟩ := name_isSome_of_lower_ne_nil f.name hne
      rw [hn]
      exact ⟨_, rfl⟩
    · rw [if_neg hc] at h
      exact ih r h

theorem labDetail_ok (lab : Lab) (h : pyLower (lab.name.getD []) ≠ []) :
    isOkRes (labDetail lab) := by
  obtain ⟨n, hn⟩ := name_isSome_of_lower_ne_nil lab.name h
  unfold labDetail
  rw [hn]
  exact ⟨_, rfl⟩

theorem labScan_ok (q : PyStr) :
    ∀ labs : List Lab, (∀ lab ∈ labs, pyLower (lab.name.getD []) ≠ [] →
      pySplitWS (pyLower (lab.name.getD [])) ≠ []) →
    ∀ r, labScan q labs = some r → isOkRes r := by
  intro labs
  induction labs with
  | nil => intro _ r h; cases h
  | cons lab rest ih =>
    intro hw r h
    unfold labScan at h
    by_cases h1 : (pyLower (lab.name.getD [])).isEmpty = true
    · rw [if_pos h1] at h
      exact ih (fun l hl => hw l (by simp [hl])) r h
    · rw [if_neg h1] at h
      have hne : pyLower (lab.name.getD []) ≠ [] := by
        simpa [List.isEmpty_iff] using h1
      by_cases h2 : pyIn (pyLower (lab.name.getD [])) q = true
      · rw [if_pos h2] at h
        cases h
        exact labDetail_ok lab hne
      · rw [if_neg h2] at h
        cases hsplit : pySplitWS (pyLower (lab.name.getD [])) with
        | nil => exact absurd hsplit (hw lab (by simp) hne)
        | cons w ws =>
          rw [hsplit] at h
          dsimp only at h
          by_cases h3 : pyIn w q = true
          · rw [if_pos h3] at h
            cases h
            exact labDetail_ok lab hne
          · rw [if_neg h3] at h
            exact ih (fun l hl => hw l (by simp [hl])) r h

theorem tryQna_ok (kb : KBase) (q : PyStr) (r : Res) (h : tryQna kb q = some r) : isOkRes r := by
  unfold tryQna at h
  split at h
  · split at h
    · cases h; exact ⟨_, rfl⟩
    · cases h
  · cases h

theorem tryCalLink_ok (q : PyStr) (r : Res) (h : tryCalLink q = some r) : isOkRes r := by
  unfold tryCalLink at h
  split at h
  · cases h; exact ⟨_, rfl⟩
  · cases h

theorem tryCalEvent_ok (kb : KBase) (q : PyStr) (r : Res) (h : tryCalEvent kb q = some r) :
    isOkRes r := by
  unfold tryCalEvent at h
  split at h
  · split at h
    · split at h
      · cases h; exact ⟨_, rfl⟩
      · cases h
    · cases h
  · cases h

theorem tryVP_ok (kb : KBase) (q : PyStr) (r : Res) (h : tryVP kb q = some r) : isOkRes r := by
  unfold tryVP at h
  split at h
  · cases h; exact ⟨_, rfl⟩
  · cases h

theorem tryPrincipal_ok (kb : KBase) (q : PyStr) (r : Res) (h : tryPrincipal kb q = some r) :
    isOkRes r := by
  unfold tryPrincipal at h
  split at h
  · cases h; exact ⟨_, rfl⟩
  · cases h

theorem tryHod_ok (kb : KBase) (q : PyStr) (r : Res)
    (hdep : ∀ d ∈ kb.departments, d.name.isSome = true) (h : tryHod kb q = some r) :
    isOkRes r := by
  unfold tryHod at h
  split at h
  · cases h
    split
    · rename_i d heq
      split
      · split
        · exact ⟨_, rfl⟩
        · rename_i hnone
          have := hdep d (find_department_mem kb.departments q d heq)
          rw [hnone] at this
          cases this
      · exact ⟨_, rfl⟩
    · exact ⟨_, rfl⟩
  · cases h

theorem tryFaculty_ok (kb : KBase) (q : PyStr) (r : Res)
    (hdep : ∀ d ∈ kb.departments, d.name.isSome = true ∧
      ∀ f ∈ d.faculty.getD [], f.name.isSome = true) (h : tryFaculty kb q = some r) :
    isOkRes r := by
  unfold tryFaculty at h
  split at h
  · cases h
    split
    · rename_i d heq
      split
      · have := hdep d (find_department_mem kb.departments q d heq)
        exact facultyAnswer_ok d this.1 this.2
      · exact ⟨_, rfl⟩
    · exact ⟨_, rfl⟩
  · cases h

theorem tryFees_ok (kb : KBase) (q : PyStr) (r : Res)
    (hdep : ∀ d ∈ kb.departments, d.name.isSome = true) (h : tryFees kb q = some r) :
    isOkRes r := by
  unfold tryFees at h
  split at h
  · cases h
    split
    · rename_i d heq
      split
      · exact feesDeptAnswer_ok kb d (hdep d (find_department_mem kb.departments q d heq))
      · exact ⟨_, rfl⟩
    · exact ⟨_, rfl⟩
  · cases h

theorem tryDeptInfo_ok (kb : KBase) (q : PyStr) (r : Res) (h : tryDeptInfo kb q = some r) :
    isOkRes r := by
  unfold tryDeptInfo at h
  split at h
  · cases h
    split
    · split
      · exact ⟨_, rfl⟩
      · exact ⟨_, rfl⟩
    · exact ⟨_, rfl⟩
  · cases h

theorem tryTimetable_ok (kb : KBase) (q : PyStr) (r : Res) (h : tryTimetable kb q = some r) :
    isOkRes r := by
  unfold tryTimetable at h
  split at h
  · cases h
    split
    · split
      · split
        · exact ⟨_, rfl⟩
        · exact ⟨_, rfl⟩
      · exact ⟨_, rfl⟩
    · exact ⟨_, rfl⟩
  · cases h

theorem trySubjects_ok (kb : KBase) (q : PyStr) (r : Res) (h : trySubjects kb q = some r) :
    isOkRes r := by
  unfold trySubjects at h
  split at h
  · cases h
    split
    · split
      · exact ⟨_, rfl⟩
      · exact ⟨_, rfl⟩
    · exact ⟨_, rfl⟩
  · cases h

theorem tryFacilities_ok (kb : KBase) (q : PyStr) (r : Res) (h : tryFacilities kb q = some r) :
    isOkRes r := by
  unfold tryFacilities at h
  split at h
  · split at h
    · rename_i r' heq
      cases h
      exact facilityScan_ok q kb.facilities _ heq
    · split at h
      · cases h
      · cases h; exact ⟨_, rfl⟩
  · cases h

theorem tryLabs_ok (kb : KBase) (q : PyStr) (r : Res)
    (hlab : ∀ lab ∈ kb.labs, pyLower (lab.name.getD []) ≠ [] →
      pySplitWS (pyLower (lab.name.getD [])) ≠ []) (h : tryLabs kb q = some r) : isOkRes r := by
  unfold tryLabs at h
  split at h
  · split at h
    · rename_i r' heq
      cases h
      exact labScan_ok q kb.labs hlab _ heq
    · split at h
      · cases h
      · cases h; exact ⟨_, rfl⟩
  · cases h

theorem tryEvents_ok (kb : KBase) (q : PyStr) (r : Res) (h : tryEvents kb q = some r) :
    isOkRes r := by
  unfold tryEvents at h
  split at h
  · cases h; exact ⟨_, rfl⟩
  · cases h

theorem tryCollegeName_ok (kb : KBase) (q : PyStr) (r : Res) (h : tryCollegeName kb q = some r) :
    isOkRes r := by
  unfold tryCollegeName at h
  split at h
  · cases h; exact ⟨_, rfl⟩
  · cases h

theorem deptDirAnswer_ok (d : Department) (hn : d.name.isSome = true) :
    isOkRes (deptDirAnswer d) := by
  obtain ⟨n, hn2⟩ := Option.isSome_iff_exists.mp hn
  unfold deptDirAnswer
  rw [hn2]
  exact ⟨_, rfl⟩

theorem tryDirections_ok (kb : KBase) (q : PyStr) (r : Res)
    (hdep : ∀ d ∈ kb.departments, d.name.isSome = true) (h : tryDirections kb q = some r) :
    isOkRes r := by
  unfold tryDirections at h
  split at h
  · split at h
    · rename_i d heq
      split at h
      · cases h
        exact deptDirAnswer_ok d (hdep d (find_department_mem kb.departments q d heq))
      · exact facilityDirScan_ok q kb.facilities r h
    · exact facilityDirScan_ok q kb.facilities r h
  · cases h

/-- Under the well-formedness conditions, every answer is a string: no
exception escapes `answer_query`. -/
theorem answer_query_ok (kb : KBase) (hw : WellNamed kb) (query : PyStr) :
    isOkRes (answer_query kb query) := by
  unfold answer_query
  cases hfs : firstSome (handlerList kb (normalize_text query)) with
  | none => exact ⟨_, rfl⟩
  | some r =>
    show isOkRes r
    have hmem := firstSome_mem _ r hfs
    obtain ⟨hdep, hlab⟩ := hw
    have hdep1 : ∀ d ∈ kb.departments, d.name.isSome = true := fun d hd => (hdep d hd).1
    simp only [handlerList, List.mem_cons, List.not_mem_nil, or_false] at hmem
    rcases hmem with h | h | h | h | h | h | h | h | h | h | h | h | h | h | h | h
    · exact tryQna_ok _ _ r h.symm
    · exact tryCalLink_ok _ r h.symm
    · exact tryCalEvent_ok _ _ r h.symm
    · exact tryVP_ok _ _ r h.symm
    · exact tryPrincipal_ok _ _ r h.symm
    · exact tryHod_ok _ _ r hdep1 h.symm
    · exact tryFaculty_ok _ _ r hdep h.symm
    · exact tryFees_ok _ _ r hdep1 h.symm
    · exact tryDeptInfo_ok _ _ r h.symm
    · exact tryTimetable_ok _ _ r h.symm
    · exact trySubjects_ok _ _ r h.symm
    · exact tryFacilities_ok _ _ r h.symm
    · exact tryLabs_ok _ _ r hlab h.symm
    · exact tryEvents_ok _ _ r h.symm
    · exact tryCollegeName_ok _ _ r h.symm
    · exact tryDirections_ok _ _ r hdep1 h.symm

/-! ### Lemmas about the timetable renderers -/

theorem pyJoin_nil : ∀ l : List PyStr, pyJoin [] l = l.flatten := by
  intro l
  cases l with
  | nil => rfl
  | cons x xs =>
    unfold pyJoin
    simp [List.flatMap]

theorem le_maxPeriods (tt : List TTRow) (r : TTRow) (hr : r ∈ tt) :
    (rowPeriods r).length ≤ maxPeriods tt := by
  unfold maxPeriods
  refine foldl_ge tt (fun m r => max m (rowPeriods r).length) (fun m => m)
    (fun r => (rowPeriods r).length) ?_ ?_ 0 r hr
  · intro acc a
    exact le_max_left _ _
  · intro acc a
    exact le_max_right _ _

/-- Every padded row of the full-week table has exactly the maximum
period count. -/
theorem padCells_length (m : Nat) (ps : List PyStr) (h : ps.length ≤ m) :
    (padCells m ps).length = m := by
  simp [padCells]
  omega

theorem headerLabels_length (m : Nat) : (headerLabels m).length = m := by
  simp [headerLabels]

/-- The rendered cells of a row are exactly the cells of its padded row. -/
theorem rowCellsHtml_eq (m : Nat) (ps : List PyStr) :
    rowCellsHtml m ps = pyJoin [] ((padCells m ps).map tdCell) := by
  by_cases h : ps.length < m
  · simp [rowCellsHtml, padCells, h, List.map_append, pyJoin_nil, List.flatten_append]
  · have h0 : m - ps.length = 0 := by omega
    simp [rowCellsHtml, padCells, h, h0]

/-! ### Lemmas about the splitter and the entry point -/

theorem split_questions_frag (text : PyStr) :
    ∀ frag ∈ split_questions text, frag ≠ [] ∧ pyStrip frag = frag := by
  intro frag hf
  unfold split_questions at hf
  rcases List.mem_filter.mp hf with ⟨hm, hne⟩
  rcases List.mem_map.mp hm with ⟨x, _, hx⟩
  constructor
  · simpa [List.isEmpty_iff] using hne
  · rw [← hx]
    exact pyStrip_idem x

theorem seqAnswers_spec (kb : KBase) :
    ∀ (qs : List PyStr) (as : List PyStr), seqAnswers kb qs = Except.ok as →
    as.length = qs.length ∧ ∀ i, i < qs.length →
      ∃ q a, qs[i]? = some q ∧ as[i]? = some a ∧ answer_query kb q = Except.ok a := by
  intro qs
  induction qs with
  | nil =>
    intro as h
    cases h
    exact ⟨rfl, fun i hi => absurd hi (by simp)⟩
  | cons q rest ih =>
    intro as h
    unfold seqAnswers at h
    cases ha : answer_query kb q with
    | ok a =>
      rw [ha] at h
      cases hrest : seqAnswers kb rest with
      | ok as' =>
        rw [hrest] at h
        cases h
        obtain ⟨hlen, hidx⟩ := ih as' hrest
        refine ⟨by simp [hlen], ?_⟩
        intro i hi
        cases i with
        | zero => exact ⟨q, a, by simp, by simp, ha⟩
        | succ i =>
          obtain ⟨q', a', hq', ha', hans⟩ := hidx i (by simpa using hi)
          exact ⟨q', a', by simpa using hq', by simpa using ha', hans⟩
      | error e =>
        rw [hrest] at h
        cases h
    | error e =>
      rw [ha] at h
      cases h

/-! ### Claim theorems -/

/-- C3 counterexample: `normalize_text` is not idempotent.  On `"feess"`,
the `"fees" → "fee"` replacement consumes one occurrence and leaves the
string `"fees"`, which a second normalization rewrites again to `"fee"`. -/
theorem normalize_not_idempotent_cex :
    normalize_text (S "feess") = S "fees" ∧ normalize_text (S "fees") = S "fee" ∧
    normalize_text (normalize_text (S "feess")) ≠ normalize_text (S "feess") := by
  refine ⟨by decide, by decide, by decide⟩

/-- C3 (amended): `normalize_text` is idempotent on every input whose
normalized form contains no synonym-table key as a substring; in general
a replacement can leave or create a new key occurrence (e.g. `"feess"`),
and a second pass then rewrites again. -/
theorem normalize_idem_of_no_key (s : PyStr)
    (h : ∀ pr ∈ synonyms, pyIn pr.1 (normalize_text s) = false) :
    normalize_text (normalize_text s) = normalize_text s :=
  normalize_text_fix (normalize_text s) (normInv_normalize s) h

/-- C3 witness: a concrete key-free input. -/
theorem normalize_idem_of_no_key_witness :
    (∀ pr ∈ synonyms, pyIn pr.1 (normalize_text (S "hello")) = false) ∧
    normalize_text (normalize_text (S "hello")) = normalize_text (S "hello") :=
  ⟨by decide, normalize_idem_of_no_key (S "hello") (by decide)⟩

/-- C4 counterexample: `similarity` is not symmetric.  The
`SequenceMatcher` block search is anchored on its first argument, and on
`"tide"`/`"diet"` the two directions give `0.25` and `0.5`. -/
theorem similarity_not_symmetric_cex :
    similarity (S "tide") (S "diet") = 1 / 4 ∧ similarity (S "diet") (S "tide") = 1 / 2 ∧
    similarity (S "tide") (S "diet") ≠ similarity (S "diet") (S "tide") := by
  have e1 : simFrac (S "tide") (S "diet") = (2, 8) := by decide
  have e2 : simFrac (S "diet") (S "tide") = (4, 8) := by decide
  refine ⟨?_, ?_, ?_⟩ <;> simp [similarity, e1, e2, toQ] <;> norm_num

/-- C4 (amended): `similarity` always lies in `[0, 1]` and is reflexive
(`similarity(s, s) = 1.0`); it is not symmetric in general. -/
theorem similarity_range_reflexive (a b : PyStr) :
    0 ≤ similarity a b ∧ similarity a b ≤ 1 ∧ similarity a a = 1 :=
  ⟨similarity_nonneg a b, similarity_le_one a b, similarity_self a⟩

/-- C6: in the full-week rendering every data row is padded with `"-"`
cells to exactly `max_periods` cells and the header has exactly
`max_periods` labels; the single-day rendering uses the day's own period
count. -/
theorem timetable_padding (tt : List TTRow) (r : TTRow) (_h : tt ≠ []) (hr : r ∈ tt) :
    (padCells (maxPeriods tt) (rowPeriods r)).length = maxPeriods tt ∧
    rowCellsHtml (maxPeriods tt) (rowPeriods r) =
      pyJoin [] ((padCells (maxPeriods tt) (rowPeriods r)).map tdCell) ∧
    (headerLabels (maxPeriods tt)).length = maxPeriods tt ∧
    (rowPeriods r ≠ [] → (headerLabels (rowPeriods r).length).length = (rowPeriods r).length) :=
  ⟨padCells_length _ _ (le_maxPeriods tt r hr), rowCellsHtml_eq _ _, headerLabels_length _,
    fun _ => headerLabels_length _⟩

/-- C6 witness: a ragged two-day timetable. -/
theorem timetable_padding_witness :
    (padCells (maxPeriods [⟨some (S "monday"), some [S "Math", S "Phys"]⟩,
        ⟨some (S "tuesday"), some [S "Chem"]⟩])
      (rowPeriods ⟨some (S "tuesday"), some [S "Chem"]⟩)).length =
      maxPeriods [⟨some (S "monday"), some [S "Math", S "Phys"]⟩,
        ⟨some (S "tuesday"), some [S "Chem"]⟩] :=
  (timetable_padding [⟨some (S "monday"), some [S "Math", S "Phys"]⟩,
    ⟨some (S "tuesday"), some [S "Chem"]⟩] ⟨some (S "tuesday"), some [S "Chem"]⟩
    (by decide) (by simp)).1

/-- C10: a department with an empty (or absent) name or short code is hit
by the substring phase on every query, because the empty string is a
substring of anything; the first such department wins when no earlier
department is hit. -/
theorem empty_key_matches_every_query (q : PyStr) (depts : List Department)
    (pre : List Department) (d : Department) (post : List Department)
    (hsplit : depts = pre ++ d :: post)
    (hkey : deptNameKey d = [] ∨ deptShortKey d = [])
    (hpre : ∀ x ∈ pre, deptSubHit q x = false) :
    find_department depts q = some d := by
  rw [hsplit]
  apply find_department_substring_first q pre d post hpre
  unfold deptSubHit
  rcases hkey with h | h
  · rw [h, pyIn_nil_left]
    rfl
  · rw [h, pyIn_nil_left]
    simp

/-- C10 witness: a nameless department hit by an arbitrary query. -/
theorem empty_key_matches_every_query_witness :
    find_department [⟨none, none, some (S "Dr. X"), none, none, none, none⟩]
      (S "completely unrelated query") =
      some ⟨none, none, some (S "Dr. X"), none, none, none, none⟩ :=
  empty_key_matches_every_query (S "completely unrelated query") _ []
    ⟨none, none, some (S "Dr. X"), none, none, none, none⟩ [] rfl (by decide) (by decide)

/-- C1 counterexample: an exact literal match does not always win.  The
bank compares lowercased questions, so an earlier entry whose question
lowercases to the query (here `"HELLO"`) beats the entry whose literal
question equals the query (`"hello"`), and the returned answer is the
earlier entry's. -/
theorem qna_exact_match_cex :
    normalize_text (S "hello") = S "hello" ∧
    kbQnaDup.sem_qna = [⟨some (S "HELLO"), some (S "A1")⟩, ⟨some (S "hello"), some (S "A2")⟩] ∧
    answer_query kbQnaDup (S "hello") = Except.ok (S "A1") ∧
    (Except.ok (S "A1") : Res) ≠ Except.ok (S "A2") := by
  refine ⟨by decide, rfl, by decide, by decide⟩

/-- C1 (amended): the direct Q&A override wins for the first bank entry
whose lowercased question equals the normalized query (an exact match
scores `1.0 > 0.7` and beats every non-equal question, which scores below
`1.0`); the returned answer is that entry's answer field (or the default
placeholder when it is absent), regardless of other keyword overlaps. -/
theorem answer_query_qna_first (kb : KBase) (query : PyStr) (pre : List QnA) (e : QnA)
    (post : List QnA) (qs : PyStr) (hbank : kb.sem_qna = pre ++ e :: post)
    (hq : e.question = some qs) (hmatch : pyLower qs = normalize_text query)
    (hpre : ∀ x ∈ pre, qnaKey x ≠ normalize_text query) :
    answer_query kb query = Except.ok (e.answer.getD (S "Information not available.")) := by
  have hfind : find_semantic_qna kb.sem_qna (normalize_text query) = some e := by
    rw [hbank]
    apply find_semantic_qna_first
    · unfold qnaKey
      rw [hq]
      exact hmatch
    · exact hpre
  have htruthy : qnaTruthy e = true := by
    unfold qnaTruthy
    rw [hq]
    simp
  have h1 : tryQna kb (normalize_text query) =
      some (Except.ok (e.answer.getD (S "Information not available."))) := by
    unfold tryQna
    rw [hfind]
    dsimp only
    rw [if_pos htruthy]
  unfold answer_query
  simp only [handlerList]
  rw [h1]
  rfl

/-- C1 witness: a single-entry bank matched exactly. -/
theorem answer_query_qna_first_witness :
    answer_query kbQnaSimple (S "Fee due date") = Except.ok (S "Aug 1") :=
  answer_query_qna_first kbQnaSimple (S "Fee due date") []
    ⟨some (S "fee due date"), some (S "Aug 1")⟩ [] (S "fee due date") rfl rfl (by decide)
    (by decide)

/-- C5 counterexample: only `find_department` has a substring phase.  A
subject whose code occurs verbatim in the query is still rejected when
its similarity score stays at or below `0.6`. -/
theorem finder_substring_cex :
    pyIn (S "cs101") (S "zzzzzzzzzzzzzzz cs101") = true ∧
    find_subject_by_name_or_code [⟨some (S "cs101"), none, none, none⟩]
      (S "zzzzzzzzzzzzzzz cs101") = none := by
  refine ⟨by decide, by decide⟩

/-- C5 (amended): `find_department` alone has the substring phase (first
hit in insertion order wins and short-circuits scoring); the calendar
event, direct Q&A and subject finders have only the similarity phase and
answer exactly when some candidate key scores strictly above their
threshold (`0.55`, `0.7`, `0.6`); the department similarity phase, run
only with no substring hit, uses `0.6`. -/
theorem finder_phase_policy (q : PyStr) (depts : List Department) (evs : List CalEvent)
    (bank : List QnA) (subs : List Subject) :
    (∀ pre d post, depts = pre ++ d :: post → (∀ x ∈ pre, deptSubHit q x = false) →
      deptSubHit q d = true → find_department depts q = some d) ∧
    ((∀ d ∈ depts, deptSubHit q d = false) →
      ((find_department depts q).isSome = true ↔
        ∃ d ∈ depts, (6 : ℚ) / 10 < similarity q (deptNameKey d) ∨
          (6 : ℚ) / 10 < similarity q (deptShortKey d))) ∧
    ((find_calendar_event evs q).isSome = true ↔
      ∃ ev ∈ evs, (55 : ℚ) / 100 < similarity q (evKey ev)) ∧
    ((find_semantic_qna bank q).isSome = true ↔
      ∃ qa ∈ bank, (7 : ℚ) / 10 < similarity q (qnaKey qa)) ∧
    ((find_subject_by_name_or_code subs q).isSome = true ↔
      ∃ s ∈ subs, (6 : ℚ) / 10 < similarity q (pyLower (s.name.getD [])) ∨
        (6 : ℚ) / 10 < similarity q (pyLower (s.code.getD []))) := by
  refine ⟨?_, find_department_isSome_iff depts q, find_calendar_event_isSome_iff evs q,
    find_semantic_qna_isSome_iff bank q, find_subject_isSome_iff subs q⟩
  intro pre d post hsplit hpre hd
  rw [hsplit]
  exact find_department_substring_first q pre d post hpre hd

/-- C5 witness: the substring phase returns the first hit, skipping an
earlier non-matching department. -/
theorem finder_phase_policy_witness :
    find_department [⟨some (S "civil"), some (S "cv"), none, none, none, none, none⟩,
      ⟨some (S "computer science"), some (S "cs"), none, none, none, none, none⟩]
      (S "where is computer science") =
      some ⟨some (S "computer science"), some (S "cs"), none, none, none, none, none⟩ :=
  (finder_phase_policy (S "where is computer science")
    [⟨some (S "civil"), some (S "cv"), none, none, none, none, none⟩,
      ⟨some (S "computer science"), some (S "cs"), none, none, none, none, none⟩] [] [] []).1
    [⟨some (S "civil"), some (S "cv"), none, none, none, none, none⟩]
    ⟨some (S "computer science"), some (S "cs"), none, none, none, none, none⟩ [] rfl (by decide)
    (by decide)

/-- C7 counterexample: the fallback is not the only non-answer response.
On `"hod"` with no departments, the HOD intent matches but cannot resolve
a department, and the answer is the HOD-specific prompt, not the
fallback. -/
theorem fallback_not_only_cex :
    intent_match (normalize_text (S "hod")) hodKws = true ∧
    answer_query kbNone (S "hod") = Except.ok hodPrompt ∧
    hodPrompt ≠ fallbackMsg := by
  refine ⟨by decide, by decide, by decide⟩

/-- C7 (amended): when no intent gate matches (the Q&A block produces
nothing and every keyword gate is false), `answer_query` returns the
fixed fallback help message; a matched intent that cannot resolve its
entity instead returns an intent-specific prompt or falls through. -/
theorem answer_query_fallback (kb : KBase) (query : PyStr)
    (h1 : tryQna kb (normalize_text query) = none)
    (h2 : intent_match (normalize_text query) calLinkKws = false)
    (h3 : intent_match (normalize_text query) calEventKws = false)
    (h4 : contains_any (normalize_text query) vpWords = false)
    (h5 : contains_any (normalize_text query) prWords = false)
    (h6 : intent_match (normalize_text query) hodKws = false)
    (h7 : intent_match (normalize_text query) facKws = false)
    (h8 : intent_match (normalize_text query) feeKws = false)
    (h9 : (intent_match (normalize_text query) deptKws &&
      !intent_match (normalize_text query) deptExclKws) = false)
    (h10 : intent_match (normalize_text query) ttKws = false)
    (h11 : intent_match (normalize_text query) subjKws = false)
    (h12 : intent_match (normalize_text query) facilityKws = false)
    (h13 : intent_match (normalize_text query) labKws = false)
    (h14 : intent_match (normalize_text query) eventKws = false)
    (h15 : intent_match (normalize_text query) collegeKws = false)
    (h16 : contains_any (normalize_text query) dirWords = false) :
    answer_query kb query = Except.ok fallbackMsg := by
  have hall : ∀ o ∈ handlerList kb (normalize_text query), o = none := by
    intro o ho
    simp only [handlerList, List.mem_cons, List.not_mem_nil, or_false] at ho
    rcases ho with h | h | h | h | h | h | h | h | h | h | h | h | h | h | h | h <;> rw [h]
    · exact h1
    · exact tryCalLink_none _ h2
    · exact tryCalEvent_none kb _ h3
    · exact tryVP_none kb _ h4
    · exact tryPrincipal_none kb _ h5
    · exact tryHod_none kb _ h6
    · exact tryFaculty_none kb _ h7
    · exact tryFees_none kb _ h8
    · exact tryDeptInfo_none kb _ h9
    · exact tryTimetable_none kb _ h10
    · exact trySubjects_none kb _ h11
    · exact tryFacilities_none kb _ h12
    · exact tryLabs_none kb _ h13
    · exact tryEvents_none kb _ h14
    · exact tryCollegeName_none kb _ h15
    · exact tryDirections_none kb _ h16
  unfold answer_query
  rw [firstSome_none _ hall]
  rfl

/-- C7 witness: nonsense input on a well-formed knowledge base. -/
theorem answer_query_fallback_witness :
    answer_query kbSample (S "xyzzy qwerty") = Except.ok fallbackMsg :=
  answer_query_fallback kbSample (S "xyzzy qwerty") (by decide) (by decide) (by decide)
    (by decide) (by decide) (by decide) (by decide) (by decide) (by decide) (by decide)
    (by decide) (by decide) (by decide) (by decide) (by decide) (by decide)

/-- C8 counterexample: a matched gate does not always produce the answer.
On `"library lab"` with no facilities, the facilities gate matches but
its block falls through, and the labs block later in the chain produces
the answer. -/
theorem gate_fall_through_cex :
    intent_match (normalize_text (S "library lab")) facilityKws = true ∧
    tryFacilities kbLabsOnly (normalize_text (S "library lab")) = none ∧
    answer_query kbLabsOnly (S "library lab") =
      Except.ok (S "Labs: physics lab — Block C") := by
  refine ⟨by decide, by decide, by decide⟩

/-- C8 (amended): the router is an ordered chain in which the first block
that produces an answer wins and later blocks are not consulted; a block
whose gate matches but which produces nothing (calendar event,
facilities, labs, directions) falls through, and when every block
produces nothing the fixed fallback message is returned. -/
theorem answer_query_first_producing (kb : KBase) (query : PyStr) :
    (∀ (i : Nat) (r : Res),
      (∀ j : Nat, j < i → (handlerList kb (normalize_text query))[j]? = some none) →
      (handlerList kb (normalize_text query))[i]? = some (some r) →
      answer_query kb query = r) ∧
    ((∀ o ∈ handlerList kb (normalize_text query), o = none) →
      answer_query kb query = Except.ok fallbackMsg) := by
  constructor
  · intro i r hbef hi
    unfold answer_query
    rw [firstSome_pos _ i r hbef hi]
    rfl
  · intro hall
    unfold answer_query
    rw [firstSome_none _ hall]
    rfl

/-- C8 witness: the labs block (position 12) answers after eleven earlier
blocks produce nothing, the facilities gate having matched. -/
theorem answer_query_first_producing_witness :
    answer_query kbLabsOnly (S "library lab") =
      Except.ok (S "Labs: physics lab — Block C") :=
  (answer_query_first_producing kbLabsOnly (S "library lab")).1 12
    (Except.ok (S "Labs: physics lab — Block C")) (by decide) (by decide)

/-- C9: `split_questions` returns only non-empty, whitespace-trimmed
fragments, and the entry point answers each fragment independently
through `answer_query`, joining the answers with `"<br>"` in original
order. -/
theorem split_and_ask (kb : KBase) (text : PyStr) :
    (∀ frag ∈ split_questions text, frag ≠ [] ∧ pyStrip frag = frag) ∧
    ((pyStrip text).isEmpty = false → ∀ as : List PyStr,
      seqAnswers kb (split_questions (pyStrip text)) = Except.ok as →
      ask_core kb text = Except.ok (pyJoin (S "<br>") as) ∧
      as.length = (split_questions (pyStrip text)).length ∧
      ∀ i : Nat, i < (split_questions (pyStrip text)).length →
        ∃ q a, (split_questions (pyStrip text))[i]? = some q ∧ as[i]? = some a ∧
          answer_query kb q = Except.ok a) := by
  refine ⟨split_questions_frag text, ?_⟩
  intro hne as hseq
  obtain ⟨hlen, hidx⟩ := seqAnswers_spec kb _ as hseq
  refine ⟨?_, hlen, hidx⟩
  unfold ask_core
  rw [if_neg (by simp [hne]), hseq]

/-- C9 witness: a compound question answered fragment by fragment. -/
theorem split_and_ask_witness :
    ask_core kbSample (S "Vp? CSE hod") =
      Except.ok (pyJoin (S "<br>")
        [S "Vice Principal: Dr. V", S "HOD of Computer Science: Dr. H"]) :=
  ((split_and_ask kbSample (S "Vp? CSE hod")).2 (by decide)
    [S "Vice Principal: Dr. V", S "HOD of Computer Science: Dr. H"] (by decide)).1

/-- C2 counterexample: `answer_query` can raise.  A department record
without a `name` key is matched by the substring phase on every query
(its defaulted key is empty), and the HOD block then evaluates the
raising access `dept["name"]`. -/
theorem answer_query_raises_cex :
    kbMissingName.departments =
      [⟨none, some (S "cs"), some (S "Dr. X"), none, none, none, none⟩] ∧
    answer_query kbMissingName (S "hod") = Except.error () := by
  refine ⟨rfl, by decide⟩

/-- C2 (amended): `answer_query` returns a string and never raises for
every query and every knowledge base in which each department record and
each faculty member carries a `name` key and no lab name is
whitespace-only; all other absent fields are rendered through default
placeholder strings. -/
theorem answer_query_total (kb : KBase) (query : PyStr) (hw : WellNamed kb) :
    ∃ s, answer_query kb query = Except.ok s :=
  answer_query_ok kb hw query

/-- C2 witness: a well-formed knowledge base on the HOD query. -/
theorem answer_query_total_witness :
    WellNamed kbSample ∧ ∃ s, answer_query kbSample (S "hod") = Except.ok s :=
  ⟨by decide, answer_query_total kbSample (S "hod") (by decide)⟩
